import Mathlib

set_option autoImplicit false

namespace GBC

/-!
Shallow embedding of the `globalbiodata` entity/persistence package
(`utils_db.py`, `utils_fetch.py`, `resource.py`, `url.py`, `version.py`,
`publication.py`, `grant.py`, `accession.py`, `resource_mention.py`).

The relational store consumed by the package is a MySQL-compatible engine
(spec section 6): values are modelled by `Val`, a row by an association list
from column name to value, and a table by a list of rows together with the
table's AUTO_INCREMENT counter and the session's LAST_INSERT_ID register.
Connection plumbing (SQLAlchemy `conn` / `engine` objects) is abstracted to
the booleans that the code actually branches on (`conn_created` /
`in_transaction`), and the store's documented conflict semantics
(`INSERT ... ON DUPLICATE KEY UPDATE`, `INSERT IGNORE`, unique indexes that
never treat NULL as conflicting, and the `id = LAST_INSERT_ID(id)` workaround)
are embedded directly.
-/

/-- SQL-level cell values as they appear in the `data` dictionaries handed to
`insert_into_table` / `delete_from_table`: NULL, integers, strings, booleans
(MySQL tinyint), and Python lists (which `_stringify_data` joins). -/
inductive Val where
  | vnull
  | vint (n : Int)
  | vstr (s : String)
  | vbool (b : Bool)
  | vlist (xs : List String)
deriving DecidableEq, Repr

/-- A row (or a Python data dictionary): association list from column name to
value.  Python dictionaries have unique keys; theorems that need this carry a
`Nodup` hypothesis on the key list. -/
abbrev Row := List (String × Val)

/-- First value bound to key `k`, mirroring Python dictionary lookup. -/
def getVal (r : Row) (k : String) : Option Val :=
  (r.find? (fun p => p.1 == k)).map (fun p => p.2)

/-- Keys of a row. -/
def rowKeys (r : Row) : List String := r.map (fun p => p.1)

/-- Per-value action of `_stringify_data`: a Python list becomes its elements
joined with `"; "`; every other value is untouched. -/
def stringifyVal : Val → Val
  | Val.vlist xs => Val.vstr (String.intercalate "; " xs)
  | v => v

/-- `_stringify_data` (utils_db.py, lines 74-78): every list value in the
dictionary is replaced, in place, by its elements joined with `"; "`. -/
def _stringify_data (data : Row) : Row :=
  data.map (fun p => (p.1, stringifyVal p.2))

/-- Static part of the Schema Catalog: a table's primary-key columns,
unique-key columns (from the `table_keys` dictionary in utils_db.py, falling
back to catalog introspection for tables such as `long_text`), and whether the
table has a store-assigned AUTO_INCREMENT surrogate `id` column. -/
structure TableSpec where
  pk : List String
  uk : List String
  auto : Bool
deriving DecidableEq, Repr

/-- The `table_keys` dictionary of utils_db.py (lines 19-33), extended with
the `auto` flag of the store schema; `long_text` is introspected to a single
auto primary key and no unique constraint. -/
def table_keys (t : String) : Option TableSpec :=
  if t = "resource" then some ⟨["id"], ["short_name", "url_id", "version_id"], true⟩
  else if t = "url" then some ⟨["id"], ["url"], true⟩
  else if t = "connection_status" then some ⟨["url_id", "date"], [], false⟩
  else if t = "version" then some ⟨["id"], ["name", "date"], true⟩
  else if t = "publication" then some ⟨["id"], ["pubmed_id", "pmc_id"], true⟩
  else if t = "grant" then some ⟨["id"], ["ext_grant_id", "grant_agency_id"], true⟩
  else if t = "grant_agency" then some ⟨["id"], ["name_hash"], true⟩
  else if t = "resource_publication" then some ⟨["resource_id", "publication_id"], [], false⟩
  else if t = "resource_grant" then some ⟨["resource_id", "grant_id"], [], false⟩
  else if t = "publication_grant" then some ⟨["publication_id", "grant_id"], [], false⟩
  else if t = "accession" then some ⟨["accession"], [], false⟩
  else if t = "accession_publication" then some ⟨["accession", "publication_id"], [], false⟩
  else if t = "resource_mention" then some ⟨["publication_id", "resource_id", "matched_alias"], [], false⟩
  else if t = "long_text" then some ⟨["id"], [], true⟩
  else none

/-- `_get_all_keys` (utils_db.py, line 51-52): primary plus unique key columns. -/
def _get_all_keys (ts : TableSpec) : List String := ts.pk ++ ts.uk

/-- `_remove_key_fields` (utils_db.py, lines 70-72): drop key columns and
`None` values from the data dictionary; what remains is the
ON DUPLICATE KEY UPDATE assignment list. -/
def _remove_key_fields (ts : TableSpec) (data : Row) : Row :=
  data.filter (fun p => !((_get_all_keys ts).contains p.1) && !(p.2 == Val.vnull))

/-- Errors surfaced by the persistence helpers:
`entityNotFound` models the `ValueError` raised by
`_fetch_id_from_unique_keys` when the post-upsert unique-key lookup finds no
row, and `noneTypeCommit` models the `AttributeError` raised by
`delete_from_table` when it calls `.commit()` on `trans = None`. -/
inductive DbError where
  | entityNotFound
  | noneTypeCommit
deriving DecidableEq, Repr

/-- Value of the `id` column of a stored row (0 when absent or non-integer),
modelling `SELECT table.id`. -/
def rowIdInt (row : Row) : Int :=
  match getVal row "id" with
  | some (Val.vint n) => n
  | _ => 0

/-- `_fetch_id_from_unique_keys` (utils_db.py, lines 54-68): with no unique
keys the function returns the sentinel 0 without querying; otherwise it
selects `id` where every unique-key column equals the data value (SQLAlchemy
renders `== None` as `IS NULL`, hence the option-level equality) and raises
`ValueError` when no row matches. -/
def _fetch_id_from_unique_keys (uk : List String) (data : Row) (rows : List Row) :
    Except DbError Int :=
  if uk.isEmpty then Except.ok 0
  else
    match rows.find? (fun row => uk.all (fun c => getVal row c == getVal data c)) with
    | some row => Except.ok (rowIdInt row)
    | none => Except.error DbError.entityNotFound

/-- MySQL conflict test for one key (primary or unique): the key must be
declared, and the incoming data must supply a non-NULL value for each of its
columns that equals the stored value — MySQL unique indexes never treat NULL
as conflicting. -/
def keyMatch (cols : List String) (data row : Row) : Bool :=
  !cols.isEmpty && cols.all (fun c =>
    match getVal data c with
    | some v => !(v == Val.vnull) && (getVal row c == some v)
    | none => false)

/-- A candidate row conflicts with the incoming data when it collides on the
primary key or on the unique key. -/
def conflictsWith (ts : TableSpec) (data row : Row) : Bool :=
  keyMatch ts.pk data row || keyMatch ts.uk data row

/-- One table of the store plus connection-visible registers: the rows, the
table's AUTO_INCREMENT counter, and the session's LAST_INSERT_ID value
(`SELECT LAST_INSERT_ID()`). -/
structure TableState where
  rows : List Row
  nextId : Nat
  lastId : Int
deriving DecidableEq, Repr

/-- Statement result as seen through SQLAlchemy: `result.inserted_primary_key[0]`
(`none` when absent) and `result.rowcount`. -/
structure ExecResult where
  insertedPk : Option Int
  affectedRows : Nat
deriving DecidableEq, Repr

/-- Replace the first row satisfying `p` (the single row a unique-key conflict
can touch). -/
def replaceFirst {α : Type} (p : α → Bool) (newRow : α) : List α → List α
  | [] => []
  | r :: rs => if p r then newRow :: rs else r :: replaceFirst p newRow rs

/-- Apply the ON DUPLICATE KEY UPDATE assignment list to the conflicting row. -/
def applyUpdate (row upd : Row) : Row :=
  row.map (fun q =>
    match getVal upd q.1 with
    | some w => (q.1, w)
    | none => q)

/-- MySQL reports 0 affected rows when every assigned column already holds the
assigned value (the `id = LAST_INSERT_ID(id)` workaround column never changes). -/
def noChangeUpdate (row upd : Row) : Bool :=
  upd.all (fun q => getVal row q.1 == some q.2)

/-- The first primary-key column's integer value in the data dictionary:
SQLAlchemy derives `inserted_primary_key` for non-AUTO_INCREMENT keys from the
compiled statement parameters, and the code reads element `[0]`. -/
def firstPkInt (ts : TableSpec) (data : Row) : Int :=
  match ts.pk with
  | [] => 0
  | c :: _ =>
    match getVal data c with
    | some (Val.vint n) => n
    | _ => 0

/-- Stored row of an AUTO_INCREMENT table: the store assigns `id := rid`
regardless of the NULL `id` in the insert parameters. -/
def withIdCol (data : Row) (rid : Nat) : Row :=
  ("id", Val.vint (Int.ofNat rid)) :: data.filter (fun p => !(p.1 == "id"))

/-- The `INSERT ... ON DUPLICATE KEY UPDATE` statement built on the typical
path of `insert_into_table` (utils_db.py, lines 204-213): on conflict the
non-key non-NULL columns are assigned, the single-primary-key
`id = LAST_INSERT_ID(id)` workaround publishes the existing row's id in the
session register whether or not any column changed, and MySQL reports
0 affected rows (no change), 2 (update), or 1 (fresh insert, whose new id
also becomes LAST_INSERT_ID). -/
def execOnDupUpdate (ts : TableSpec) (data dnp : Row) (st : TableState) :
    ExecResult × TableState :=
  match st.rows.find? (fun row => conflictsWith ts data row) with
  | some row =>
      let rid := rowIdInt row
      let lastId := if ts.pk.length = 1 then rid else st.lastId
      if noChangeUpdate row dnp then
        (⟨some 0, 0⟩, { st with lastId := lastId })
      else
        (⟨some rid, 2⟩,
         { st with
            rows := replaceFirst (fun r => conflictsWith ts data r) (applyUpdate row dnp) st.rows,
            lastId := lastId })
  | none =>
      if ts.auto then
        (⟨some (Int.ofNat st.nextId), 1⟩,
         ⟨st.rows ++ [withIdCol data st.nextId], st.nextId + 1, Int.ofNat st.nextId⟩)
      else
        (⟨some (firstPkInt ts data), 1⟩, { st with rows := st.rows ++ [data] })

/-- The `INSERT IGNORE` statement used for pure-key rows (utils_db.py,
line 215): a duplicate is a no-op with 0 affected rows. -/
def execInsertIgnore (ts : TableSpec) (data : Row) (st : TableState) :
    ExecResult × TableState :=
  match st.rows.find? (fun row => conflictsWith ts data row) with
  | some _ => (⟨some (firstPkInt ts data), 0⟩, st)
  | none =>
      if ts.auto then
        (⟨some (Int.ofNat st.nextId), 1⟩,
         ⟨st.rows ++ [withIdCol data st.nextId], st.nextId + 1, Int.ofNat st.nextId⟩)
      else
        (⟨some (firstPkInt ts data), 1⟩, { st with rows := st.rows ++ [data] })

/-- Python truthiness of `inserted_pk`: `None` and 0 are falsy. -/
def pkFalsy (o : Option Int) : Bool :=
  match o with
  | none => true
  | some n => n == 0

/-- Return-value resolution of `insert_into_table` (utils_db.py, lines
223-241): on a falsy `inserted_pk` or zero affected rows the id is re-read
from `SELECT LAST_INSERT_ID()` for single-primary-key tables and from
`_fetch_id_from_unique_keys` otherwise; more than one affected row means the
statement already computed the id of the updated row; otherwise it is the
fresh insert's id. -/
def resolveId (ts : TableSpec) (res : ExecResult) (data : Row) (st : TableState) :
    Except DbError Int :=
  if pkFalsy res.insertedPk || res.affectedRows == 0 then
    if ts.pk.length = 1 then Except.ok st.lastId
    else _fetch_id_from_unique_keys ts.uk data st.rows
  else if 1 < res.affectedRows then Except.ok (res.insertedPk.getD 0)
  else Except.ok (res.insertedPk.getD 0)

/-- One executed statement of `insert_into_table` (utils_db.py, lines
201-215): the upsert when the data has non-key non-NULL columns, the
insert-or-ignore for pure key rows. -/
def insertStatement (ts : TableSpec) (data : Row) (st : TableState) :
    ExecResult × TableState :=
  let dnp := _remove_key_fields ts data
  if dnp.isEmpty then execInsertIgnore ts data st
  else execOnDupUpdate ts data dnp st

/-- `insert_into_table` without the long-data filter (its default): stringify
the data, execute the statement, and resolve the returned id. -/
def insert_into_table (ts : TableSpec) (data0 : Row) (st : TableState) :
    Except DbError (Int × TableState) :=
  let data := _stringify_data data0
  let (res, st1) := insertStatement ts data st
  match resolveId ts res data st1 with
  | Except.ok i => Except.ok (i, st1)
  | Except.error e => Except.error e

/-! ### Oversize-value offload (`filter_long_data`) -/

/-- The spec of the `long_text` overflow table as `insert_into_table` sees it. -/
def long_text_spec : TableSpec := ⟨["id"], [], true⟩

/-- The symbolic token written back into the original column after a string
is offloaded to `long_text`. -/
def longTextToken (i : Int) : String := s!"long_text({i})"

/-- Offload condition of the `filter_long_data` pass (utils_db.py, line 183):
`v and this_max_len and isinstance(v, str) and len(v) > this_max_len` —
a non-empty string value, a truthy declared CHARACTER_MAXIMUM_LENGTH, and a
length exceeding it. -/
def shouldOffload (maxLen : Option Nat) (v : Val) : Bool :=
  match v, maxLen with
  | Val.vstr s, some m => !(s == "") && !(m == 0) && m < s.length
  | _, _ => false

/-- The `filter_long_data` pass of `insert_into_table` (utils_db.py, lines
180-185): walk the (already stringified) data dictionary in order and replace
each overlength string by a `long_text(<id>)` token, after upserting the
original text into the `long_text` table via the same insert path.
The recursive `insert_into_table('long_text', {'text': v}, ...)` call can
never raise (fresh insert into an AUTO_INCREMENT table without unique keys),
so the unreachable error branch keeps the value unchanged. -/
def _filter_long_data (maxLen : String → Option Nat) :
    Row → TableState → Row × TableState
  | [], lt => ([], lt)
  | p :: rest, lt =>
    if shouldOffload (maxLen p.1) p.2 then
      match insert_into_table long_text_spec [("text", p.2)] lt with
      | Except.ok (i, lt1) =>
          let r := _filter_long_data maxLen rest lt1
          ((p.1, Val.vstr (longTextToken i)) :: r.1, r.2)
      | Except.error _ =>
          let r := _filter_long_data maxLen rest lt
          (p :: r.1, r.2)
    else
      let r := _filter_long_data maxLen rest lt
      (p :: r.1, r.2)

/-- The caller's data dictionary as it stands after `insert_into_table`
returns: `_stringify_data` mutates it in place (line 171), and with
`filter_long_data=True` the offload pass then overwrites overlength string
values in place (line 185). -/
def data_after_insert (maxLen : String → Option Nat) (filterLong : Bool)
    (data0 : Row) (lt : TableState) : Row :=
  let data1 := _stringify_data data0
  if filterLong then (_filter_long_data maxLen data1 lt).1 else data1

/-- The `long_text` table as it stands after the offload pass. -/
def long_text_after (maxLen : String → Option Nat) (data0 : Row)
    (lt : TableState) : TableState :=
  (_filter_long_data maxLen (_stringify_data data0) lt).2

/-! ### Retry loop and transaction ownership -/

/-- Outcome of one executed statement inside the retry loop: success with a
resolved id, an `OperationalError` whose MySQL error code the handler reads
from `e.orig.args[0]` (`none` when unavailable), or any other exception. -/
inductive StmtOutcome where
  | ok (id : Int)
  | opErr (code : Option Int)
  | otherErr
deriving DecidableEq, Repr

/-- Result of running the retry loop: success or a propagated exception,
remembering the value of the `attempts` counter at that point;
`incomplete` marks an outcome trace shorter than the executed attempts
(never reached when the trace supplies one outcome per attempt). -/
inductive RunResult where
  | success (id : Int) (attempts : Nat)
  | raised (attempts : Nat)
  | incomplete
deriving DecidableEq, Repr

/-- The transient whitelist of the retry handler (utils_db.py, line 266):
MySQL deadlock 1213 and lock-wait-timeout 1205. -/
def isTransientCode (c : Option Int) : Bool :=
  c == some 1213 || c == some 1205

/-- The retry loop of `insert_into_table` (utils_db.py, lines 194-277),
driven by a trace of statement outcomes, one per executed attempt.
`attempts` is incremented at the top of each iteration; an
`OperationalError` re-raises unless the engine owns the transaction
(`own_txn`, i.e. it created the connection itself), retries are enabled, the
code is whitelisted, and the attempt count has not exceeded `max_retries`;
every other exception re-raises immediately. -/
def retryRun (ownTxn retryOnDeadlock : Bool) (maxRetries : Nat)
    (attempts : Nat) : List StmtOutcome → RunResult
  | [] => RunResult.incomplete
  | o :: rest =>
    let a := attempts + 1
    match o with
    | StmtOutcome.ok i => RunResult.success i a
    | StmtOutcome.otherErr => RunResult.raised a
    | StmtOutcome.opErr code =>
      if ownTxn && retryOnDeadlock && isTransientCode code && decide (a ≤ maxRetries) then
        retryRun ownTxn retryOnDeadlock maxRetries a rest
      else
        RunResult.raised a

/-- Backoff delay before retry `attempt` (utils_db.py, line 273):
`(base_delay * (2 ** (attempts - 1))) * (1 + 0.25 * random.random())`,
with the random draw `r` in `[0, 1)` passed explicitly. -/
def retryDelay (baseDelay : ℚ) (attempt : Nat) (r : ℚ) : ℚ :=
  (baseDelay * 2 ^ (attempt - 1)) * (1 + (1 / 4) * r)

/-- Whether `insert_into_table` commits on a successful statement
(utils_db.py, lines 217-221): `trans.commit()` when it opened an explicit
transaction (`own_txn` and no implicit one was active), or `conn.commit()`
when it owns the connection and an implicit transaction is still open. -/
def commitsOnSuccess (ownTxn implicitTxn inTxn : Bool) : Bool :=
  (ownTxn && !implicitTxn) || (ownTxn && implicitTxn && inTxn)

/-- Whether the exception handlers of `insert_into_table` roll back
(utils_db.py, lines 254-263 and 280-289): `trans.rollback()` when an explicit
transaction was opened, else `conn.rollback()` when the engine owns the
connection and it is inside a transaction. -/
def rollsBackOnError (ownTxn implicitTxn inTxn : Bool) : Bool :=
  (ownTxn && !implicitTxn) || (!(ownTxn && !implicitTxn) && ownTxn && inTxn)

/-! ### Delete engine -/

/-- Equality filter of `delete_from_table`: every filter column must equal the
stored value (SQLAlchemy renders `== None` as `IS NULL`). -/
def matchesFilters (filters : Row) (row : Row) : Bool :=
  filters.all (fun p => getVal row p.1 == some p.2)

/-- `delete_from_table` (utils_db.py, lines 302-354): stringify the filters,
delete every matching row, and return the affected-row count.  When the
connection is already inside a transaction the code sets `trans = None`
("reuse the open transaction") but then unconditionally calls
`trans.commit()`, which raises `AttributeError` on `None`; the handler's
`if trans:` guard is false, so nothing is rolled back and the
`AttributeError` propagates after the delete has executed uncommitted. -/
def delete_from_table (inTxn : Bool) (filters0 : Row) (rows : List Row) :
    Except DbError (Nat × List Row) :=
  let filters := _stringify_data filters0
  let remaining := rows.filter (fun r => !(matchesFilters filters r))
  let deleted := rows.length - remaining.length
  if inTxn then Except.error DbError.noneTypeCommit
  else Except.ok (deleted, remaining)

/-! ## Entity layer: typed store model

The write-cascade and fetch/reconstruction claims (C2, C5, C6, C7, C8) are
settled against a typed model of the fixed table set of spec section 6, with
one Lean structure per table row and per entity class.  Each per-table upsert
below is `insert_into_table` specialised at that table's `table_keys` entry
(conflict on the primary key when the data carries an id, else on the unique
key when all its columns are non-NULL; on conflict the non-key non-NULL
columns are assigned; a fresh insert draws the AUTO_INCREMENT counter).
SQLAlchemy connection plumbing is dropped. -/

/-- Update assignment for one column: a non-NULL data value overwrites the
stored one, NULL leaves it (it was removed by `_remove_key_fields`). -/
def updOpt {α : Type} (new old : Option α) : Option α :=
  match new with
  | some v => some v
  | none => old

/-- Python truthiness of an id attribute (`if not self.x.id`): only a
non-zero id suppresses the cascaded write. -/
def idTruthy : Option Nat → Bool
  | some (n + 1) => n + 1 == n + 1
  | _ => false

/-- Exceptions of the entity layer: `ValueError` (Publication validation,
Grant agency type check), `AttributeError` on `None` (e.g. `self.url.id`
with no URL), and the `TypeError` from reversing `None` in `fetch_url`. -/
inductive PyErr where
  | valueError
  | attributeNone
  | typeErrorNoneReverse
deriving DecidableEq, Repr

/-! ### Sorting (the model of SQL ORDER BY) -/

def insertSorted {α : Type} (le : α → α → Bool) (x : α) : List α → List α
  | [] => [x]
  | y :: ys => if le x y then x :: y :: ys else y :: insertSorted le x ys

/-- Insertion sort; models `ORDER BY` with the given ascending comparison. -/
def sortBy {α : Type} (le : α → α → Bool) (l : List α) : List α :=
  l.foldr (insertSorted le) []

/-- Code-point comparison of strings (Python string `<`/`sorted`). -/
def strLtChars : List Char → List Char → Bool
  | [], [] => false
  | [], _ :: _ => true
  | _ :: _, [] => false
  | c :: cs, d :: ds =>
    if c.toNat < d.toNat then true
    else if d.toNat < c.toNat then false
    else strLtChars cs ds

def strLeB (a b : String) : Bool := strLtChars a.data b.data || a.data == b.data

/-! ### Table rows -/

structure UrlRow where
  id : Nat
  url : Option String
  url_country : Option String
  url_coordinates : Option String
  wayback_url : Option String
deriving DecidableEq, Repr

structure ConnStatusRow where
  url_id : Nat
  date : Int
  status : Option String
  is_online : Option Bool
  is_latest : Option Bool
deriving DecidableEq, Repr

structure VersionRow where
  id : Nat
  name : Option String
  date : Option Int
  user : Option String
  additional_metadata : Option String
deriving DecidableEq, Repr

structure ResourceRow where
  id : Nat
  short_name : Option String
  common_name : Option String
  full_name : Option String
  url_id : Nat
  version_id : Nat
  prediction_metadata : Option String
  is_gcbr : Option Bool
  is_latest : Option Bool
deriving DecidableEq, Repr

structure PublicationRow where
  id : Nat
  title : Option String
  pubmed_id : Option Int
  pmc_id : Option String
  publication_date : Option String
  authors : Option String
  affiliation : Option String
  affiliation_countries : Option String
  citation_count : Option Int
  keywords : Option String
deriving DecidableEq, Repr

structure GrantRow where
  id : Nat
  ext_grant_id : Option String
  grant_agency_id : Nat
deriving DecidableEq, Repr

structure GrantAgencyRow where
  id : Nat
  name : Option String
  country : Option String
  parent_agency_id : Option Nat
  representative_agency_id : Option Nat
deriving DecidableEq, Repr

/-- The `accession` table; the code of `fetch_accession` reads a
`prediction_metadata` column from it (utils_fetch.py, line 380), so the model
carries that column. -/
structure AccessionRow where
  accession : String
  resource_id : Nat
  version_id : Nat
  url : Option String
  prediction_metadata : Option String
deriving DecidableEq, Repr

/-- One stored `resource_mention` row (one matched alias of one mention);
`mean_confidence` is modelled with exact rationals in place of floats. -/
structure MentionRow where
  publication_id : Nat
  resource_id : Nat
  version_id : Nat
  matched_alias : String
  match_count : Int
  mean_confidence : ℚ
deriving DecidableEq, Repr

/-- The relational store: the fixed table set of spec section 6 with one
AUTO_INCREMENT counter per surrogate-key table. -/
structure Db where
  url : List UrlRow
  nextUrlId : Nat
  connection_status : List ConnStatusRow
  version : List VersionRow
  nextVersionId : Nat
  resource : List ResourceRow
  nextResourceId : Nat
  publication : List PublicationRow
  nextPublicationId : Nat
  grant : List GrantRow
  nextGrantId : Nat
  grant_agency : List GrantAgencyRow
  nextGrantAgencyId : Nat
  resource_publication : List (Nat × Nat)
  resource_grant : List (Nat × Nat)
  publication_grant : List (Nat × Nat)
  accession : List AccessionRow
  accession_publication : List (String × Nat)
  resource_mention : List MentionRow
  long_text : List (Nat × String)
  nextLongTextId : Nat
deriving DecidableEq, Repr

/-- An `INSERT IGNORE` into a pure-key junction table: a duplicate pair is a
successful no-op. -/
def addPair {α : Type} [BEq α] (x : α) (l : List α) : List α :=
  if l.contains x then l else l ++ [x]

/-! ### Entity objects -/

/-- `ConnectionStatus` as constructed by url.py (`__init__` guarantees a
date — a missing one is replaced by "now" and marks the status latest — and
always derives a concrete boolean `is_online`). -/
structure ConnectionStatus where
  url_id : Option Nat
  status : String
  date : Int
  is_online : Bool
  is_latest : Option Bool
deriving DecidableEq, Repr

structure URLObj where
  id : Option Nat
  url : Option String
  url_country : Option String
  url_coordinates : Option String
  wayback_url : Option String
  status : List ConnectionStatus
deriving DecidableEq, Repr

structure VersionObj where
  id : Option Nat
  name : Option String
  date : Option Int
  user : Option String
  additional_metadata : Option String
deriving DecidableEq, Repr

/-- `GrantAgency` with id-only parent/representative references; the write
path only reads `.id` of the nested agencies, and the fetch path builds them
as id-only `GrantAgency({'id': ...})` shells. -/
structure GrantAgencyObj where
  id : Option Nat
  name : Option String
  country : Option String
  parent_agency_id : Option Nat
  representative_agency_id : Option Nat
deriving DecidableEq, Repr

structure GrantObj where
  id : Option Nat
  ext_grant_id : Option String
  grant_agency : GrantAgencyObj
deriving DecidableEq, Repr

structure PublicationObj where
  id : Option Nat
  title : Option String
  pubmed_id : Option Int
  pmc_id : Option String
  publication_date : Option String
  authors : Option String
  affiliation : Option String
  affiliation_countries : Option String
  citation_count : Option Int
  keywords : Option String
  grants : Option (List GrantObj)
deriving DecidableEq, Repr

/-- `Resource`; `publications` mirrors the fetch layer's value, which may be
absent (unexpanded), or a list holding a `None` entry (`fetch_publication`
returning `None` is wrapped into `[None]` by `fetch_resource`); `grants`
mirrors the constructor's default `[]`. -/
structure ResourceObj where
  id : Option Nat
  short_name : Option String
  common_name : Option String
  full_name : Option String
  url : Option URLObj
  version : VersionObj
  prediction_metadata : Option String
  publications : Option (List (Option PublicationObj))
  grants : List GrantObj
  is_gcbr : Option Bool
  is_latest : Option Bool
deriving DecidableEq, Repr

structure AccessionObj where
  accession : String
  resource : ResourceObj
  publications : List (Option PublicationObj)
  version : VersionObj
  url : Option String
  additional_metadata : Option String
deriving DecidableEq, Repr

/-- `MatchedAlias`; `mean_confidence` is modelled with exact rationals. -/
structure MatchedAlias where
  matched_alias : String
  match_count : Int
  mean_confidence : ℚ
deriving DecidableEq, Repr

structure ResourceMentionObj where
  publication : PublicationObj
  resource : ResourceObj
  version : VersionObj
  matched_aliases : List MatchedAlias
  match_count : Int
  mean_confidence : ℚ
deriving DecidableEq, Repr

/-- Degenerate `Version({})` built by constructors when no version was
fetched (`r.get('version') or Version(r2)`). -/
def emptyVersion : VersionObj := ⟨none, none, none, none, none⟩

/-- Degenerate `Resource` from an empty prefixed field group (the
`extract_fields_by_type` fallback of the `Accession` and `ResourceMention`
constructors when the referenced resource does not exist). -/
def emptyResource : ResourceObj :=
  ⟨none, none, none, none, none, emptyVersion, none, none, [], none, none⟩

/-- Degenerate `Publication` from an empty field group. -/
def emptyPublication : PublicationObj :=
  ⟨none, none, none, none, none, none, none, none, none, none, none⟩

/-! ### Write cascade -/

/-- Truthiness of `is_latest`-style attributes (`if self.is_latest:`). -/
def boolTruthy : Option Bool → Bool
  | some true => true
  | _ => false

/-- Offload of one string field by the `filter_long_data` pass of
`insert_into_table`; `maxLen` is the per-column declared
CHARACTER_MAXIMUM_LENGTH of the target table (INFORMATION_SCHEMA). -/
def offloadField (maxLen : String → Option Nat) (col : String)
    (v : Option String) (db : Db) : Option String × Db :=
  match v with
  | none => (none, db)
  | some s =>
      if shouldOffload (maxLen col) (Val.vstr s) then
        (some (longTextToken (Int.ofNat db.nextLongTextId)),
         { db with
             long_text := db.long_text ++ [(db.nextLongTextId, s)]
             nextLongTextId := db.nextLongTextId + 1 })
      else (some s, db)

/-- `ConnectionStatus.write` (url.py, lines 204-221): when the status is
marked latest, first flip `is_latest` to 0 for every stored status of this
`url_id` in a dedicated statement, then upsert on the composite primary key
`(url_id, date)`, assigning the non-key non-NULL columns on conflict.  The
write path is reached with `url_id` assigned by `URL.write`; a NULL `url_id`
would make the handwritten flip SQL invalid and is not modelled. -/
def connectionStatusWrite (c : ConnectionStatus) (db : Db) : Db :=
  match c.url_id with
  | none => db
  | some uid =>
      let db1 :=
        if boolTruthy c.is_latest then
          { db with connection_status := db.connection_status.map (fun r =>
              if r.url_id == uid then { r with is_latest := some false } else r) }
        else db
      match db1.connection_status.find?
          (fun r => r.url_id == uid && r.date == c.date) with
      | some row =>
          let nr : ConnStatusRow :=
            { row with
                status := some c.status
                is_online := some c.is_online
                is_latest := updOpt c.is_latest row.is_latest }
          let pred := fun (r : ConnStatusRow) => r.url_id == uid && r.date == c.date
          { db1 with connection_status := replaceFirst pred nr db1.connection_status }
      | none =>
          let nr : ConnStatusRow :=
            ⟨uid, c.date, some c.status, some c.is_online, c.is_latest⟩
          { db1 with connection_status := db1.connection_status ++ [nr] }

/-- `URL.write` (url.py, lines 68-88): upsert the URL row (conflict on a
supplied id or on the unique `url` string), then write each
`ConnectionStatus` with `url_id` pointed at the resulting id. -/
def urlWrite (u : URLObj) (db : Db) : Nat × URLObj × Db :=
  let conflict := fun (row : UrlRow) =>
    (match u.id with | some i => row.id == i | none => false) ||
    (match u.url with | some s => row.url == some s | none => false)
  let step :=
    match db.url.find? conflict with
    | some row =>
        let nr : UrlRow :=
          { row with
              url_country := updOpt u.url_country row.url_country
              url_coordinates := updOpt u.url_coordinates row.url_coordinates
              wayback_url := updOpt u.wayback_url row.wayback_url }
        (row.id, { db with url := replaceFirst conflict nr db.url })
    | none =>
        let nr : UrlRow :=
          ⟨db.nextUrlId, u.url, u.url_country, u.url_coordinates, u.wayback_url⟩
        (db.nextUrlId,
         { db with url := db.url ++ [nr], nextUrlId := db.nextUrlId + 1 })
  let sts := u.status.map (fun c => { c with url_id := some step.1 })
  let db2 := sts.foldl (fun acc c => connectionStatusWrite c acc) step.2
  (step.1, { u with id := some step.1, status := sts }, db2)

/-- `Version.write` (version.py, lines 42-55): upsert on the unique
`(name, date)` pair. -/
def versionWrite (v : VersionObj) (db : Db) : Nat × VersionObj × Db :=
  let conflict := fun (row : VersionRow) =>
    (match v.id with | some i => row.id == i | none => false) ||
    (match v.name, v.date with
     | some nm, some dt => row.name == some nm && row.date == some dt
     | _, _ => false)
  match db.version.find? conflict with
  | some row =>
      let nr : VersionRow :=
        { row with
            user := updOpt v.user row.user
            additional_metadata := updOpt v.additional_metadata row.additional_metadata }
      (row.id, { v with id := some row.id },
       { db with version := replaceFirst conflict nr db.version })
  | none =>
      let nr : VersionRow :=
        ⟨db.nextVersionId, v.name, v.date, v.user, v.additional_metadata⟩
      (db.nextVersionId,
       { v with id := some db.nextVersionId },
       { db with version := db.version ++ [nr], nextVersionId := db.nextVersionId + 1 })

/-- `GrantAgency.write` (grant.py, lines 145-162): offload overlength
strings (`filter_long_data=True`), then upsert.  The `name_hash` unique key
is a store-side hash of `name`, modelled as a conflict on the (non-NULL)
name. -/
def grantAgencyWrite (maxLen : String → String → Option Nat)
    (ga : GrantAgencyObj) (db : Db) : Nat × GrantAgencyObj × Db :=
  let (nm, db1) := offloadField (maxLen "grant_agency") "name" ga.name db
  let (ct, db2) := offloadField (maxLen "grant_agency") "country" ga.country db1
  let conflict := fun (row : GrantAgencyRow) =>
    (match ga.id with | some i => row.id == i | none => false) ||
    (match nm with | some s => row.name == some s | none => false)
  match db2.grant_agency.find? conflict with
  | some row =>
      let nr : GrantAgencyRow :=
        { row with
            name := updOpt nm row.name
            country := updOpt ct row.country
            parent_agency_id := updOpt ga.parent_agency_id row.parent_agency_id
            representative_agency_id :=
              updOpt ga.representative_agency_id row.representative_agency_id }
      (row.id, { ga with id := some row.id },
       { db2 with grant_agency := replaceFirst conflict nr db2.grant_agency })
  | none =>
      let nr : GrantAgencyRow :=
        ⟨db2.nextGrantAgencyId, nm, ct, ga.parent_agency_id,
         ga.representative_agency_id⟩
      (db2.nextGrantAgencyId, { ga with id := some db2.nextGrantAgencyId },
       { db2 with
           grant_agency := db2.grant_agency ++ [nr]
           nextGrantAgencyId := db2.nextGrantAgencyId + 1 })

/-- `Grant.write` (grant.py, lines 39-58): write the agency when it has no
id, then insert the grant row.  All grant columns are key columns, so the
statement is an `INSERT IGNORE`; a fresh insert returns the new id.  On a
duplicate the code re-reads `SELECT LAST_INSERT_ID()` on its pooled
connection — a session register that need not hold the conflicting row's
id; the model returns the existing row's id, the value the workaround is
meant to produce (no claim exercises this branch). -/
def grantWrite (maxLen : String → String → Option Nat) (g : GrantObj) (db : Db) :
    Nat × GrantObj × Db :=
  let step :=
    if idTruthy g.grant_agency.id then
      (g.grant_agency.id.getD 0, g.grant_agency, db)
    else grantAgencyWrite maxLen g.grant_agency db
  let gaid := step.1
  let conflict := fun (row : GrantRow) =>
    (match g.id with | some i => row.id == i | none => false) ||
    (match g.ext_grant_id with
     | some e => row.ext_grant_id == some e && row.grant_agency_id == gaid
     | none => false)
  match step.2.2.grant.find? conflict with
  | some row => (row.id, { g with id := some row.id, grant_agency := step.2.1 }, step.2.2)
  | none =>
      let nr : GrantRow := ⟨step.2.2.nextGrantId, g.ext_grant_id, gaid⟩
      (step.2.2.nextGrantId,
       { g with id := some step.2.2.nextGrantId, grant_agency := step.2.1 },
       { step.2.2 with
           grant := step.2.2.grant ++ [nr]
           nextGrantId := step.2.2.nextGrantId + 1 })

/-- The grant loop of `Publication.write` (publication.py, lines 107-115):
write each unwritten grant and upsert the `publication_grant` junction row. -/
def publicationGrantsWrite (maxLen : String → String → Option Nat) (pid : Nat) :
    List GrantObj → Db → List GrantObj × Db
  | [], db => ([], db)
  | g :: rest, db =>
      let step := if idTruthy g.id then (g.id.getD 0, g, db) else grantWrite maxLen g db
      let db2 := { step.2.2 with
        publication_grant := addPair (pid, step.1) step.2.2.publication_grant }
      let r := publicationGrantsWrite maxLen pid rest db2
      ({ step.2.1 with id := some step.1 } :: r.1, r.2)

/-- `Publication.write` (publication.py, lines 83-117): validate
title/authors/citation_count, offload overlength strings
(`filter_long_data=True`; `pubmed_id` and `citation_count` are integers and
`publication_date` a date object, so only the string fields are candidates),
upsert on the unique `(pubmed_id, pmc_id)` pair — MySQL unique indexes never
conflict on NULL — then write unwritten grants and their junction rows.  The
`__conn__`/`__engine__` plumbing entries of `self.__dict__` are connection
bookkeeping, not column data, and are not modelled. -/
def publicationWrite (maxLen : String → String → Option Nat)
    (p : PublicationObj) (db : Db) : Except PyErr (Nat × PublicationObj × Db) :=
  if p.title = none ∨ p.title = some "" ∨ p.authors = none ∨ p.authors = some "" ∨
      p.citation_count = none then
    Except.error PyErr.valueError
  else
    let (t1, db1) := offloadField (maxLen "publication") "title" p.title db
    let (pm1, db2) := offloadField (maxLen "publication") "pmc_id" p.pmc_id db1
    let (au1, db3) := offloadField (maxLen "publication") "authors" p.authors db2
    let (af1, db4) :=
      offloadField (maxLen "publication") "affiliation" p.affiliation db3
    let (ac1, db5) := offloadField (maxLen "publication") "affiliation_countries"
      p.affiliation_countries db4
    let (kw1, db6) := offloadField (maxLen "publication") "keywords" p.keywords db5
    let conflict := fun (row : PublicationRow) =>
      (match p.id with | some i => row.id == i | none => false) ||
      (match p.pubmed_id, pm1 with
       | some pmid, some pmc => row.pubmed_id == some pmid && row.pmc_id == some pmc
       | _, _ => false)
    let step :=
      match db6.publication.find? conflict with
      | some row =>
          let nr : PublicationRow :=
            { row with
                title := updOpt t1 row.title
                publication_date := updOpt p.publication_date row.publication_date
                authors := updOpt au1 row.authors
                affiliation := updOpt af1 row.affiliation
                affiliation_countries := updOpt ac1 row.affiliation_countries
                citation_count := updOpt p.citation_count row.citation_count
                keywords := updOpt kw1 row.keywords }
          (row.id, { db6 with publication := replaceFirst conflict nr db6.publication })
      | none =>
          let nr : PublicationRow :=
            ⟨db6.nextPublicationId, t1, p.pubmed_id, pm1, p.publication_date,
             au1, af1, ac1, p.citation_count, kw1⟩
          (db6.nextPublicationId,
           { db6 with
               publication := db6.publication ++ [nr]
               nextPublicationId := db6.nextPublicationId + 1 })
    match p.grants with
    | some gs =>
        if gs.isEmpty then Except.ok (step.1, { p with id := some step.1 }, step.2)
        else
          let r := publicationGrantsWrite maxLen step.1 gs step.2
          Except.ok (step.1, { p with id := some step.1, grants := some r.1 }, r.2)
    | none => Except.ok (step.1, { p with id := some step.1 }, step.2)

/-- The publication loop of `Resource.write` (resource.py, lines 127-134);
a `None` entry in the list raises `AttributeError` on `p.id`. -/
def resourcePublicationsWrite (maxLen : String → String → Option Nat) (rid : Nat) :
    List (Option PublicationObj) → Db → Except PyErr (List (Option PublicationObj) × Db)
  | [], db => Except.ok ([], db)
  | none :: _, _ => Except.error PyErr.attributeNone
  | some p :: rest, db =>
      match (if idTruthy p.id then Except.ok (p.id.getD 0, p, db)
             else publicationWrite maxLen p db) with
      | Except.error e => Except.error e
      | Except.ok (pid, p2, db1) =>
          let db2 :=
            { db1 with
                resource_publication := addPair (rid, pid) db1.resource_publication }
          match resourcePublicationsWrite maxLen rid rest db2 with
          | Except.error e => Except.error e
          | Except.ok (rest2, db3) =>
              Except.ok (some { p2 with id := some pid } :: rest2, db3)

/-- The grant loop of `Resource.write` (resource.py, lines 136-143). -/
def resourceGrantsWrite (maxLen : String → String → Option Nat) (rid : Nat) :
    List GrantObj → Db → List GrantObj × Db
  | [], db => ([], db)
  | g :: rest, db =>
      let step := if idTruthy g.id then (g.id.getD 0, g, db) else grantWrite maxLen g db
      let db2 := { step.2.2 with
        resource_grant := addPair (rid, step.1) step.2.2.resource_grant }
      let r := resourceGrantsWrite maxLen rid rest db2
      ({ step.2.1 with id := some step.1 } :: r.1, r.2)

/-- `Resource.write` (resource.py, lines 90-145): write the URL and the
Version when they have no id yet; when `is_latest` is set, flip
`is_latest = 0` for every resource row sharing this `short_name` in a
dedicated statement (an f-string, so a missing `short_name` renders the
literal `'None'`); upsert the resource row on the unique
`(short_name, url_id, version_id)`; then write unwritten publications and
grants together with their junction rows. -/
def resourceWrite (maxLen : String → String → Option Nat) (r : ResourceObj)
    (db : Db) : Except PyErr (Nat × ResourceObj × Db) :=
  match r.url with
  | none => Except.error PyErr.attributeNone
  | some u0 =>
      let ustep := if idTruthy u0.id then (u0.id.getD 0, u0, db) else urlWrite u0 db
      let uid := ustep.1
      let vstep :=
        if idTruthy r.version.id then (r.version.id.getD 0, r.version, ustep.2.2)
        else versionWrite r.version ustep.2.2
      let vid := vstep.1
      let flipKey := r.short_name.getD "None"
      let db3 :=
        if boolTruthy r.is_latest then
          { vstep.2.2 with resource := vstep.2.2.resource.map (fun row =>
              if row.short_name == some flipKey then
                { row with is_latest := some false }
              else row) }
        else vstep.2.2
      let conflict := fun (row : ResourceRow) =>
        (match r.id with | some i => row.id == i | none => false) ||
        (match r.short_name with
         | some sn => row.short_name == some sn && row.url_id == uid &&
             row.version_id == vid
         | none => false)
      let rstep :=
        match db3.resource.find? conflict with
        | some row =>
            let nr : ResourceRow :=
              { row with
                  common_name := updOpt r.common_name row.common_name
                  full_name := updOpt r.full_name row.full_name
                  prediction_metadata :=
                    updOpt r.prediction_metadata row.prediction_metadata
                  is_gcbr := updOpt r.is_gcbr row.is_gcbr
                  is_latest := updOpt r.is_latest row.is_latest }
            (row.id, { db3 with resource := replaceFirst conflict nr db3.resource })
        | none =>
            let nr : ResourceRow :=
              ⟨db3.nextResourceId, r.short_name, r.common_name, r.full_name,
               uid, vid, r.prediction_metadata, r.is_gcbr, r.is_latest⟩
            (db3.nextResourceId,
             { db3 with
                 resource := db3.resource ++ [nr]
                 nextResourceId := db3.nextResourceId + 1 })
      let rid := rstep.1
      match (match r.publications with
             | some ps =>
                 if ps.isEmpty then Except.ok (r.publications, rstep.2)
                 else
                   match resourcePublicationsWrite maxLen rid ps rstep.2 with
                   | Except.error e => Except.error e
                   | Except.ok (ps2, db5) => Except.ok (some ps2, db5)
             | none => Except.ok (none, rstep.2)) with
      | Except.error e => Except.error e
      | Except.ok (ps2, db5) =>
          let gstep :=
            if r.grants.isEmpty then (r.grants, db5)
            else resourceGrantsWrite maxLen rid r.grants db5
          let robj : ResourceObj :=
            { r with
                id := some rid
                url := some ustep.2.1
                version := vstep.2.1
                publications := ps2
                grants := gstep.1 }
          Except.ok (rid, robj, gstep.2)

/-! ### Fetch / reconstruction layer -/

/-- `str(...)` of a possibly-NULL status value (`str(None)` is `"None"`). -/
def statusStr : Option String → String
  | some s => s
  | none => "None"

/-- Online-status derivation of the `ConnectionStatus` constructor (url.py,
line 196): the first 18 characters of the status must not be one of `'404'`,
`'500'`, `'HTTPConnectionPool'`. -/
def statusOnline (s : String) : Bool :=
  !(s.take 18 == "404" || s.take 18 == "500" || s.take 18 == "HTTPConnectionPool")

/-- The `ConnectionStatus` constructor applied to a fetched row (url.py,
lines 183-198): the date is present (part of the primary key), `is_latest`
comes back as stored (possibly NULL), and a NULL stored `is_online` is
re-derived from the status prefix. -/
def connStatusOfRow (r : ConnStatusRow) : ConnectionStatus :=
  { url_id := some r.url_id
    status := statusStr r.status
    date := r.date
    is_online :=
      match r.is_online with
      | some b => b
      | none => statusOnline (statusStr r.status)
    is_latest := r.is_latest }

/-- MySQL ascending sort key for a nullable boolean column (NULL first). -/
def olKey : Option Bool → Nat
  | none => 0
  | some false => 1
  | some true => 2

/-- The ascending `ORDER BY is_latest, date` of `fetch_url`
(utils_fetch.py, line 116). -/
def connLe (a b : ConnStatusRow) : Bool :=
  decide (olKey a.is_latest < olKey b.is_latest) ||
    (olKey a.is_latest == olKey b.is_latest && decide (a.date ≤ b.date))

/-- `fetch_url({'id': uid})` as used by `fetch_resource` (utils_fetch.py,
lines 93-122): fetch the row, fetch its connection statuses ordered by
`(is_latest, date)`, and reverse the list so the latest comes first.  When
the URL has no statuses `fetch_connection_status` returns `None` and line
118 evaluates `None[::-1]`, raising `TypeError`.  Row ids are unique in a
well-formed store, so the single-row collapse takes the first match. -/
def fetch_url_by_id (db : Db) (uid : Nat) : Except PyErr (Option URLObj) :=
  match db.url.filter (fun r => r.id == uid) with
  | [] => Except.ok none
  | u :: _ =>
      match sortBy connLe (db.connection_status.filter (fun r => r.url_id == uid)) with
      | [] => Except.error PyErr.typeErrorNoneReverse
      | rows =>
          Except.ok (some
            ⟨some u.id, u.url, u.url_country, u.url_coordinates, u.wayback_url,
             (rows.map connStatusOfRow).reverse⟩)

/-- `URL.latest_connection_status` (url.py, lines 140-154): the head of the
status list unless it is not marked latest and some other entry is. -/
def latestConnectionStatus (u : URLObj) : Option ConnectionStatus :=
  match u.status with
  | [] => none
  | s0 :: _ =>
      if s0.is_latest == some true then some s0
      else some ((u.status.find? (fun s => s.is_latest == some true)).getD s0)

/-- `URL.is_online` (url.py, lines 156-163). -/
def urlIsOnline (u : URLObj) : Bool :=
  match latestConnectionStatus u with
  | some s => s.is_online
  | none => false

/-- "Comes no later than": the converse of the ascending `(is_latest, date)`
fetch order `connLe`, stated on the constructed `ConnectionStatus` objects
(which keep the row's `is_latest` and `date`). -/
def csLatestFirst (a b : ConnectionStatus) : Prop :=
  olKey b.is_latest < olKey a.is_latest ∨
    (olKey b.is_latest = olKey a.is_latest ∧ b.date ≤ a.date)

/-- `fetch_version({'id': vid})` (utils_fetch.py, lines 176-197). -/
def fetch_version_by_id (db : Db) (vid : Nat) : Option VersionObj :=
  match db.version.filter (fun r => r.id == vid) with
  | [] => none
  | v :: _ => some ⟨some v.id, v.name, v.date, v.user, v.additional_metadata⟩

/-- `fetch_grant_agency({'id': i})` (utils_fetch.py, lines 304-325). -/
def fetch_grant_agency_by_id (db : Db) (i : Nat) : Option GrantAgencyObj :=
  match db.grant_agency.filter (fun r => r.id == i) with
  | [] => none
  | g :: _ =>
      some ⟨some g.id, g.name, g.country, g.parent_agency_id,
        g.representative_agency_id⟩

/-- Per-row body of `fetch_grant` (utils_fetch.py, lines 283-286): a grant
whose agency row is missing makes the `Grant` constructor raise `ValueError`
(grant.py, line 33). -/
def fetchGrantRows (db : Db) : List GrantRow → Except PyErr (List GrantObj)
  | [] => Except.ok []
  | g :: rest =>
      match fetch_grant_agency_by_id db g.grant_agency_id with
      | none => Except.error PyErr.valueError
      | some ga =>
          match fetchGrantRows db rest with
          | Except.error e => Except.error e
          | Except.ok gs => Except.ok (⟨some g.id, g.ext_grant_id, ga⟩ :: gs)

/-- `fetch_grant({'id': ids})` (utils_fetch.py, lines 264-288), ordered by
id. -/
def fetch_grant_by_ids (db : Db) (ids : List Nat) : Except PyErr (List GrantObj) :=
  fetchGrantRows db
    (sortBy (fun a b => decide (a.id ≤ b.id)) (db.grant.filter (fun r => ids.contains r.id)))

/-- The `Publication` constructor's empty-string normalisation of `pmc_id`
(publication.py, line 55). -/
def pmcIdOfRow : Option String → Option String
  | some "" => none
  | x => x

/-- Per-row body of `fetch_publication` (utils_fetch.py, lines 233-245):
with `expanded` the grants come through the `publication_grant` junction
(an empty fetch gives `None`, i.e. no grants). -/
def fetchPublicationRows (db : Db) (expanded : Bool) :
    List PublicationRow → Except PyErr (List PublicationObj)
  | [] => Except.ok []
  | p :: rest =>
      let gids := (db.publication_grant.filter (fun pr => pr.1 == p.id)).map
        (fun pr => pr.2)
      match (if expanded then fetch_grant_by_ids db gids else Except.ok []) with
      | Except.error e => Except.error e
      | Except.ok gsl =>
          let gso : Option (List GrantObj) :=
            match gsl with
            | [] => none
            | gs => some gs
          match fetchPublicationRows db expanded rest with
          | Except.error e => Except.error e
          | Except.ok ps =>
              Except.ok (⟨some p.id, p.title, p.pubmed_id, pmcIdOfRow p.pmc_id,
                p.publication_date, p.authors, p.affiliation,
                p.affiliation_countries, p.citation_count, p.keywords, gso⟩ :: ps)

/-- `fetch_publication({'id': ids})` (utils_fetch.py, lines 213-247),
ordered by id. -/
def fetch_publication_by_ids (db : Db) (expanded : Bool) (ids : List Nat) :
    Except PyErr (List PublicationObj) :=
  fetchPublicationRows db expanded
    (sortBy (fun a b => decide (a.id ≤ b.id))
      (db.publication.filter (fun r => ids.contains r.id)))

/-- `fetch_resource({'id': rid})` (utils_fetch.py, lines 21-60): fetch the
row, its URL and Version, and — when `expanded` — the publications and
grants through the junction tables.  An empty expanded publication fetch
comes back as `None` and is wrapped into `[None]` (line 49); an empty grant
fetch stays `None` and the constructor turns it into `[]`. -/
def fetch_resource_by_id (db : Db) (expanded : Bool) (rid : Nat) :
    Except PyErr (Option ResourceObj) :=
  match sortBy (fun a b : ResourceRow => decide (a.id ≤ b.id))
      (db.resource.filter (fun r => r.id == rid)) with
  | [] => Except.ok none
  | r :: _ =>
      match fetch_url_by_id db r.url_id with
      | Except.error e => Except.error e
      | Except.ok uo =>
          let vo := (fetch_version_by_id db r.version_id).getD emptyVersion
          match (if expanded then
                   match fetch_publication_by_ids db true
                       ((db.resource_publication.filter (fun pr => pr.1 == r.id)).map
                         (fun pr => pr.2)) with
                   | Except.error e => Except.error e
                   | Except.ok [] => Except.ok (some [(none : Option PublicationObj)])
                   | Except.ok ps => Except.ok (some (ps.map some))
                 else Except.ok none) with
          | Except.error e => Except.error e
          | Except.ok pubs =>
              match (if expanded then
                       fetch_grant_by_ids db
                         ((db.resource_grant.filter (fun pr => pr.1 == r.id)).map
                           (fun pr => pr.2))
                     else Except.ok []) with
              | Except.error e => Except.error e
              | Except.ok gs =>
                  Except.ok (some ⟨some r.id, r.short_name, r.common_name,
                    r.full_name, uo, vo, r.prediction_metadata, pubs, gs,
                    r.is_gcbr, r.is_latest⟩)

/-! ### fetch_accession -/

/-- One group of `fetch_accession`'s `grouped_accessions` dictionary
(utils_fetch.py, lines 372-382): the scalar fields of the first row of the
group and the set of distinct publication ids (the set is modelled as a
first-occurrence list; its order is irrelevant because the ids are
re-queried with `ORDER BY id`). -/
structure AccGroup where
  version_id : Nat
  resource_id : Nat
  publications : List Nat
  url : Option String
  prediction_metadata : Option String
deriving DecidableEq, Repr

/-- The `accession` joined with `accession_publication` (utils_fetch.py,
line 359).  The joined row is a flat dict with `accession_`- and
`accession_publication_`-prefixed column names that the code strips with two
`re.sub` passes (lines 364-365); the typed pair represents the stripped
result directly (the colliding `accession` key holds the join value on both
sides). -/
def accJoinRows (db : Db) : List (AccessionRow × Nat) :=
  (db.accession.map (fun a =>
    (db.accession_publication.filter (fun ap => ap.1 == a.accession)).map
      (fun ap => (a, ap.2)))).flatten

/-- The `ORDER BY accession_resource_id, accession_accession` of
`fetch_accession` (utils_fetch.py, line 357). -/
def accLe (x y : AccessionRow × Nat) : Bool :=
  decide (x.1.resource_id < y.1.resource_id) ||
    (x.1.resource_id == y.1.resource_id && strLeB x.1.accession y.1.accession)

/-- Python `set.add` of a publication id, as a first-occurrence list. -/
def addNat (n : Nat) (l : List Nat) : List Nat :=
  if l.contains n then l else l ++ [n]

/-- One step of the grouping loop (utils_fetch.py, lines 372-382). -/
def insertAccRow (acc : List (String × AccGroup)) (x : AccessionRow × Nat) :
    List (String × AccGroup) :=
  match acc.find? (fun g => g.1 == x.1.accession) with
  | some _ =>
      acc.map (fun g =>
        if g.1 == x.1.accession then
          (g.1, { g.2 with publications := addNat x.2 g.2.publications })
        else g)
  | none =>
      acc ++ [(x.1.accession,
        ⟨x.1.version_id, x.1.resource_id, [x.2], x.1.url, x.1.prediction_metadata⟩)]

def groupAccessions (rows : List (AccessionRow × Nat)) : List (String × AccGroup) :=
  rows.foldl insertAccRow []

/-- Correctness invariant of the accession grouping loop: group keys are
distinct, each group carries the scalar fields of the first processed row
with its key and exactly the set of distinct publication ids of the
processed rows with that key, and keys without a group have no processed
row. -/
def AccSpec (processed : List (AccessionRow × Nat))
    (acc : List (String × AccGroup)) : Prop :=
  (acc.map Prod.fst).Nodup ∧
  (∀ a g, (a, g) ∈ acc →
    (∃ x0, processed.find? (fun x => x.1.accession == a) = some x0 ∧
      g.version_id = x0.1.version_id ∧ g.resource_id = x0.1.resource_id ∧
      g.url = x0.1.url ∧ g.prediction_metadata = x0.1.prediction_metadata) ∧
    g.publications.Nodup ∧
    (∀ n, n ∈ g.publications ↔
      n ∈ (processed.filter (fun x => x.1.accession == a)).map Prod.snd)) ∧
  (∀ a : String, (∀ g, (a, g) ∉ acc) →
    processed.filter (fun x => x.1.accession == a) = [])

/-- Build one `Accession` from its group (utils_fetch.py, lines 388-395).
The built dict carries only `accession`, `resource`, `version` and
`publications`, so the constructor's `url` and `additional_metadata` come
out `None` even though the group collected them. -/
def buildAccession (db : Db) (expanded : Bool) (gs : List (String × AccGroup))
    (a : String) : Except PyErr AccessionObj :=
  match gs.find? (fun g => g.1 == a) with
  | none => Except.error PyErr.valueError
  | some g =>
      match fetch_resource_by_id db expanded g.2.resource_id with
      | Except.error e => Except.error e
      | Except.ok ro =>
          let res := ro.getD emptyResource
          let vo := (fetch_version_by_id db g.2.version_id).getD emptyVersion
          match fetch_publication_by_ids db expanded g.2.publications with
          | Except.error e => Except.error e
          | Except.ok [] => Except.ok ⟨a, res, [none], vo, none, none⟩
          | Except.ok ps => Except.ok ⟨a, res, ps.map some, vo, none, none⟩

def buildAccessions (db : Db) (expanded : Bool) (gs : List (String × AccGroup)) :
    List String → Except PyErr (List AccessionObj)
  | [] => Except.ok []
  | a :: rest =>
      match buildAccession db expanded gs a with
      | Except.error e => Except.error e
      | Except.ok x =>
          match buildAccessions db expanded gs rest with
          | Except.error e => Except.error e
          | Except.ok xs => Except.ok (x :: xs)

/-- `fetch_accession` (utils_fetch.py, lines 341-397) with the AND-of-
equality filter abstracted over the joined row: query the join ordered by
`(resource_id, accession)`, group by the accession natural key collecting
the distinct publication ids, sort the group keys, and build one Accession
per group. -/
def fetch_accession (db : Db) (expanded : Bool)
    (flt : AccessionRow × Nat → Bool) :
    Except PyErr (Option (List AccessionObj)) :=
  let rows := sortBy accLe ((accJoinRows db).filter flt)
  if rows.isEmpty then Except.ok none
  else
    let gs := groupAccessions rows
    match buildAccessions db expanded gs (sortBy strLeB (gs.map (fun g => g.1))) with
    | Except.error e => Except.error e
    | Except.ok xs => Except.ok (some xs)

/-! ### fetch_resource_mention -/

/-- One group of `mentions_grouped` (utils_fetch.py, lines 420-439). -/
structure MentionGroup where
  publication_id : Nat
  resource_id : Nat
  version_id : Nat
  matched_aliases : List MatchedAlias
deriving DecidableEq, Repr

/-- The `ORDER BY publication_id, resource_id, match_count` of
`fetch_resource_mention` (utils_fetch.py, line 414). -/
def mentionLe (a b : MentionRow) : Bool :=
  decide (a.publication_id < b.publication_id) ||
    (a.publication_id == b.publication_id &&
      (decide (a.resource_id < b.resource_id) ||
        (a.resource_id == b.resource_id && decide (a.match_count ≤ b.match_count))))

/-- One step of the mention grouping loop (utils_fetch.py, lines 422-439). -/
def insertMentionRow (acc : List ((Nat × Nat × Nat) × MentionGroup))
    (m : MentionRow) : List ((Nat × Nat × Nat) × MentionGroup) :=
  let key : Nat × Nat × Nat := (m.publication_id, m.resource_id, m.version_id)
  let ma : MatchedAlias := ⟨m.matched_alias, m.match_count, m.mean_confidence⟩
  match acc.find? (fun g => g.1 == key) with
  | some _ =>
      acc.map (fun g =>
        if g.1 == key then
          (g.1, { g.2 with matched_aliases := g.2.matched_aliases ++ [ma] })
        else g)
  | none =>
      acc ++ [(key, ⟨m.publication_id, m.resource_id, m.version_id, [ma]⟩)]

def groupMentions (rows : List MentionRow) :
    List ((Nat × Nat × Nat) × MentionGroup) :=
  rows.foldl insertMentionRow []

/-- The alias record built from one fetched row (utils_fetch.py, lines
427-431). -/
def rowAlias (m : MentionRow) : MatchedAlias :=
  ⟨m.matched_alias, m.match_count, m.mean_confidence⟩

/-- Correctness invariant of the mention grouping loop: group keys are
distinct, each group carries its key's ids and exactly the alias records of
the processed rows with that key (in row order), and keys without a group
have no processed row. -/
def GroupSpec (processed : List MentionRow)
    (acc : List ((Nat × Nat × Nat) × MentionGroup)) : Prop :=
  (acc.map Prod.fst).Nodup ∧
  (∀ k g, (k, g) ∈ acc → g.publication_id = k.1 ∧ g.resource_id = k.2.1 ∧
    g.version_id = k.2.2 ∧
    g.matched_aliases = (processed.filter (fun q =>
      (q.publication_id, q.resource_id, q.version_id) == k)).map rowAlias) ∧
  (∀ k : Nat × Nat × Nat, (∀ g, (k, g) ∉ acc) →
    processed.filter (fun q =>
      (q.publication_id, q.resource_id, q.version_id) == k) = [])

/-- Sum of the aliases' match counts (utils_fetch.py, lines 441-446, and the
`ResourceMention` constructor, resource_mention.py, line 54). -/
def aliasCountSum (l : List MatchedAlias) : Int :=
  (l.map (fun a => a.match_count)).sum

/-- Unweighted arithmetic mean of the aliases' mean-confidences
(utils_fetch.py, line 447, and resource_mention.py, line 55). -/
def aliasConfMean (l : List MatchedAlias) : ℚ :=
  if l.length = 0 then 0
  else (l.map (fun a => a.mean_confidence)).sum / (l.length : ℚ)

/-- Build one `ResourceMention` from its group (utils_fetch.py, lines
452-477): the publication/resource/version are fetched (the per-call cache
only avoids repeated identical fetches against the unchanged store and is
observationally transparent), the alias list is reversed to put the highest
count first, and the `ResourceMention` constructor recomputes `match_count`
and `mean_confidence` from the alias list (resource_mention.py, 54-55). -/
def buildMention (db : Db) (expanded : Bool) (g : MentionGroup) :
    Except PyErr ResourceMentionObj :=
  match fetch_publication_by_ids db expanded [g.publication_id] with
  | Except.error e => Except.error e
  | Except.ok pl =>
      let pub := pl.head?.getD emptyPublication
      match fetch_resource_by_id db expanded g.resource_id with
      | Except.error e => Except.error e
      | Except.ok ro =>
          let res := ro.getD emptyResource
          let ver := (fetch_version_by_id db g.version_id).getD emptyVersion
          let mas := g.matched_aliases.reverse
          Except.ok ⟨pub, res, ver, mas, aliasCountSum mas, aliasConfMean mas⟩

def buildMentions (db : Db) (expanded : Bool) :
    List ((Nat × Nat × Nat) × MentionGroup) →
      Except PyErr (List ResourceMentionObj)
  | [] => Except.ok []
  | g :: rest =>
      match buildMention db expanded g.2 with
      | Except.error e => Except.error e
      | Except.ok x =>
          match buildMentions db expanded rest with
          | Except.error e => Except.error e
          | Except.ok xs => Except.ok (x :: xs)

/-- `fetch_resource_mention` (utils_fetch.py, lines 399-479) with the
AND-of-equality filter abstracted over the row.  The Python code iterates
`group_order`, a set of keys, in unspecified order; the model uses
first-occurrence order (the claims do not depend on the output order). -/
def fetch_resource_mention (db : Db) (expanded : Bool)
    (flt : MentionRow → Bool) :
    Except PyErr (Option (List ResourceMentionObj)) :=
  let rows := sortBy mentionLe (db.resource_mention.filter flt)
  if rows.isEmpty then Except.ok none
  else
    match buildMentions db expanded (groupMentions rows) with
    | Except.error e => Except.error e
    | Except.ok xs => Except.ok (some xs)

/-- The statement-plus-resolution core of `insert_into_table`, taking the
already-stringified data; `insert_into_table ts data st` is definitionally
`insert_core ts (_stringify_data data) st`. -/
def insert_core (ts : TableSpec) (d : Row) (st : TableState) :
    Except DbError (Int × TableState) :=
  let (res, st1) := insertStatement ts d st
  match resolveId ts res d st1 with
  | Except.ok i => Except.ok (i, st1)
  | Except.error e => Except.error e

/-! ## Helper lemmas on rows -/

theorem insertSorted_perm {α : Type} (le : α → α → Bool) (x : α) :
    ∀ l : List α, List.Perm (insertSorted le x l) (x :: l) := by
  intro l
  induction l with
  | nil => exact List.Perm.refl _
  | cons y ys ih =>
      by_cases h : le x y
      · rw [show insertSorted le x (y :: ys) = x :: y :: ys from by
          simp [insertSorted, h]]
      · rw [show insertSorted le x (y :: ys) = y :: insertSorted le x ys from by
          simp [insertSorted, h]]
        exact List.Perm.trans (List.Perm.cons y ih) (List.Perm.swap x y ys)

theorem sortBy_perm {α : Type} (le : α → α → Bool) (l : List α) :
    List.Perm (sortBy le l) l := by
  induction l with
  | nil => exact List.Perm.refl _
  | cons y ys ih =>
      exact List.Perm.trans (insertSorted_perm le y _) (List.Perm.cons y ih)

theorem insertSorted_pairwise {α : Type} (le : α → α → Bool)
    (htot : ∀ a b, le a b = true ∨ le b a = true)
    (htrans : ∀ a b c, le a b = true → le b c = true → le a c = true)
    (x : α) (l : List α) (h : l.Pairwise (fun a b => le a b = true)) :
    (insertSorted le x l).Pairwise (fun a b => le a b = true) := by
  induction l with
  | nil => simp [insertSorted]
  | cons y ys ih =>
      rcases List.pairwise_cons.mp h with ⟨hy, hys⟩
      by_cases hxy : le x y
      · rw [show insertSorted le x (y :: ys) = x :: y :: ys from by
          simp [insertSorted, hxy]]
        refine List.pairwise_cons.mpr ⟨?_, h⟩
        intro z hz
        rcases List.mem_cons.mp hz with h1 | h1
        · exact h1 ▸ hxy
        · exact htrans x y z hxy (hy z h1)
      · have hyx : le y x = true := by
          rcases htot x y with h1 | h1
          · exact absurd h1 hxy
          · exact h1
        rw [show insertSorted le x (y :: ys) = y :: insertSorted le x ys from by
          simp [insertSorted, hxy]]
        refine List.pairwise_cons.mpr ⟨?_, ih hys⟩
        intro z hz
        have hz2 : z = x ∨ z ∈ ys := by
          have := (insertSorted_perm le x ys).mem_iff.mp hz
          simpa [List.mem_cons] using this
        rcases hz2 with h1 | h1
        · exact h1 ▸ hyx
        · exact hy z h1

theorem sortBy_pairwise {α : Type} (le : α → α → Bool)
    (htot : ∀ a b, le a b = true ∨ le b a = true)
    (htrans : ∀ a b c, le a b = true → le b c = true → le a c = true)
    (l : List α) : (sortBy le l).Pairwise (fun a b => le a b = true) := by
  induction l with
  | nil => simp [sortBy]
  | cons y ys ih => exact insertSorted_pairwise le htot htrans y _ ih

theorem getVal_cons_eq {k : String} {v : Val} {r : Row} :
    getVal ((k, v) :: r) k = some v := by
  simp [getVal, List.find?_cons]

theorem getVal_cons_ne {k c : String} {v : Val} {r : Row} (h : k ≠ c) :
    getVal ((k, v) :: r) c = getVal r c := by
  simp only [getVal, List.find?_cons]
  rw [show ((k == c) : Bool) = false from by simpa using h]

theorem getVal_of_mem_nodup {r : Row} {k : String} {v : Val}
    (hnd : (rowKeys r).Nodup) (hmem : (k, v) ∈ r) : getVal r k = some v := by
  induction r with
  | nil => cases hmem
  | cons p rest ih =>
      rcases List.mem_cons.mp hmem with h | h
      · subst h
        simp [getVal, List.find?]
      · have hnd := by simpa [rowKeys] using hnd
        have hk : p.1 ≠ k := by
          intro heq
          exact hnd.1 v (heq ▸ h)
        have hnd2 : (rowKeys rest).Nodup := by simpa [rowKeys] using hnd.2
        simp only [getVal, List.find?]
        rw [show (p.1 == k) = false from by simpa using hk]
        exact ih hnd2 h

theorem getVal_stringify (r : Row) (k : String) :
    getVal (_stringify_data r) k = (getVal r k).map stringifyVal := by
  induction r with
  | nil => rfl
  | cons p rest ih =>
      by_cases h : p.1 = k
      · simp [getVal, _stringify_data, List.find?, h]
      · simp only [getVal, _stringify_data, List.map, List.find?]
        rw [show (p.1 == k) = false from by simpa using h]
        simp only [getVal, _stringify_data] at ih
        exact ih

theorem rowKeys_stringify (r : Row) : rowKeys (_stringify_data r) = rowKeys r := by
  induction r with
  | nil => rfl
  | cons p rest _ => simp [_stringify_data, rowKeys]

theorem mem_stringify_of_mem {r : Row} {k : String} {v : Val} (h : (k, v) ∈ r) :
    (k, stringifyVal v) ∈ _stringify_data r :=
  List.mem_map_of_mem (fun p => (p.1, stringifyVal p.2)) h

/-- A run of whitelisted transient failures exhausts the retry budget: with
the `attempts` counter at `a` and `m + 1 - a` failures remaining, the loop
raises with the counter at `m + 1`. -/
theorem retryRun_exhausts (code : Option Int) (hc : isTransientCode code = true)
    (m : Nat) : ∀ k a, a + k = m + 1 → 0 < k →
    retryRun true true m a (List.replicate k (StmtOutcome.opErr code)) =
      RunResult.raised (m + 1) := by
  intro k
  induction k with
  | zero => intro a _ h0; cases h0
  | succ n ih =>
      intro a hsum _
      cases n with
      | zero =>
          have ha : a = m := by omega
          subst ha
          simp [retryRun, hc, List.replicate]
      | succ n2 =>
          have hle : a + 1 ≤ m := by omega
          have : retryRun true true m a
              (List.replicate (n2 + 2) (StmtOutcome.opErr code)) =
              retryRun true true m (a + 1)
                (List.replicate (n2 + 1) (StmtOutcome.opErr code)) := by
            simp [retryRun, hc, List.replicate, hle]
          rw [this]
          exact ih (a + 1) (by omega) (by omega)

/-! ## Claim theorems for the Upsert Engine retry policy (C3) -/

/-- C3: `insert_into_table` retries a failed statement only when it opened the
connection itself (owns the transaction) and the store error code is in the
transient whitelist (deadlock 1213, lock-wait-timeout 1205), sleeping
`base_delay * 2^(attempt-1)` plus up to 25% random jitter between attempts and
raising once the bounded retry count is exhausted; when the caller supplied
the connection every error — whitelisted or not — propagates immediately and
the engine never commits or rolls back the caller's transaction. -/
theorem c3_retry_policy (maxRetries : Nat) (baseDelay r : ℚ) (attempt : Nat)
    (code : Option Int) (trace : List StmtOutcome)
    (retryOn implicitTxn inTxn : Bool)
    (hr0 : 0 ≤ r) (hr1 : r ≤ 1) (hb : 0 ≤ baseDelay) :
    (retryRun false retryOn maxRetries 0 (StmtOutcome.opErr code :: trace) =
        RunResult.raised 1) ∧
    (commitsOnSuccess false implicitTxn inTxn = false ∧
     rollsBackOnError false implicitTxn inTxn = false) ∧
    (isTransientCode code = true → 1 ≤ maxRetries →
      retryRun true true maxRetries 0 (StmtOutcome.opErr code :: trace) =
        retryRun true true maxRetries 1 trace) ∧
    (isTransientCode code = false →
      retryRun true true maxRetries 0 (StmtOutcome.opErr code :: trace) =
        RunResult.raised 1) ∧
    (∀ c : Int, isTransientCode (some c) = true ↔ c = 1213 ∨ c = 1205) ∧
    (isTransientCode code = true →
      retryRun true true maxRetries 0
          (List.replicate (maxRetries + 1) (StmtOutcome.opErr code)) =
        RunResult.raised (maxRetries + 1)) ∧
    (retryDelay baseDelay attempt r =
        baseDelay * 2 ^ (attempt - 1) + (baseDelay * 2 ^ (attempt - 1)) * ((1 / 4) * r) ∧
     baseDelay * 2 ^ (attempt - 1) ≤ retryDelay baseDelay attempt r ∧
     retryDelay baseDelay attempt r ≤ (baseDelay * 2 ^ (attempt - 1)) * (5 / 4)) := by
  refine ⟨by simp [retryRun], ⟨by simp [commitsOnSuccess], by simp [rollsBackOnError]⟩,
    ?_, ?_, ?_, ?_, ?_, ?_, ?_⟩
  · intro hc hm
    simp [retryRun, hc, hm]
  · intro hc
    simp [retryRun, hc]
  · intro c
    constructor
    · intro h
      simpa [isTransientCode] using h
    · rintro (h | h) <;> simp [isTransientCode, h]
  · intro hc
    exact retryRun_exhausts code hc maxRetries (maxRetries + 1) 0 (by omega) (by omega)
  · unfold retryDelay; ring
  · have hpow : (0 : ℚ) ≤ baseDelay * 2 ^ (attempt - 1) := by positivity
    have h14 : (1 : ℚ) ≤ 1 + (1 / 4) * r := by linarith
    calc baseDelay * 2 ^ (attempt - 1)
        = (baseDelay * 2 ^ (attempt - 1)) * 1 := by ring
      _ ≤ (baseDelay * 2 ^ (attempt - 1)) * (1 + (1 / 4) * r) :=
          mul_le_mul_of_nonneg_left h14 hpow
      _ = retryDelay baseDelay attempt r := rfl
  · have hpow : (0 : ℚ) ≤ baseDelay * 2 ^ (attempt - 1) := by positivity
    have h54 : 1 + (1 / 4) * r ≤ (5 : ℚ) / 4 := by linarith
    calc retryDelay baseDelay attempt r
        = (baseDelay * 2 ^ (attempt - 1)) * (1 + (1 / 4) * r) := rfl
      _ ≤ (baseDelay * 2 ^ (attempt - 1)) * (5 / 4) :=
          mul_le_mul_of_nonneg_left h54 hpow

/-- Witness for C3 at concrete inputs: a caller-supplied connection propagates
a whitelisted deadlock immediately, and three transient failures exhaust a
retry budget of two. -/
theorem c3_retry_policy_witness :
    retryRun false true 2 0 (StmtOutcome.opErr (some 1213) :: [StmtOutcome.ok 7]) =
        RunResult.raised 1 ∧
    retryRun true true 2 0
        (List.replicate 3 (StmtOutcome.opErr (some 1213))) = RunResult.raised 3 :=
  ⟨(c3_retry_policy 2 (1 / 5) (1 / 2) 3 (some 1213) [StmtOutcome.ok 7] true false false
      (by norm_num) (by norm_num) (by norm_num)).1,
   (c3_retry_policy 2 (1 / 5) (1 / 2) 3 (some 1213) [StmtOutcome.ok 7] true false false
      (by norm_num) (by norm_num) (by norm_num)).2.2.2.2.2.1 (by rfl)⟩

/-! ## Claim theorems for no-op upsert id resolution (C4) -/

/-- C4: whenever a statement reports zero affected rows, the returned id is
resolved via `SELECT LAST_INSERT_ID()` when the table has exactly one
primary-key column and by re-querying on the unique-key columns otherwise;
and a unique-key lookup that finds no matching row raises rather than
returning a sentinel. -/
theorem c4_noop_id_resolution (ts : TableSpec) (res : ExecResult) (data : Row)
    (st : TableState) (h0 : res.affectedRows = 0) :
    (ts.pk.length = 1 → resolveId ts res data st = Except.ok st.lastId) ∧
    (ts.pk.length ≠ 1 →
      resolveId ts res data st = _fetch_id_from_unique_keys ts.uk data st.rows) ∧
    (ts.uk.isEmpty = false →
      (∀ row ∈ st.rows, ts.uk.all (fun c => getVal row c == getVal data c) = false) →
      _fetch_id_from_unique_keys ts.uk data st.rows =
        Except.error DbError.entityNotFound) := by
  refine ⟨?_, ?_, ?_⟩
  · intro h1
    simp [resolveId, h0, h1]
  · intro h1
    simp [resolveId, h0, h1]
  · intro hne hforall
    have hfind : st.rows.find?
        (fun row => ts.uk.all (fun c => getVal row c == getVal data c)) = none := by
      rw [List.find?_eq_none]
      intro row hrow
      simp [hforall row hrow]
    simp [_fetch_id_from_unique_keys, hne, hfind]

/-- Witness for C4 at concrete inputs: a zero-affected-rows upsert on a
single-primary-key table reads `LAST_INSERT_ID()` (here 42), and a failed
unique-key lookup on `publication` raises. -/
theorem c4_noop_id_resolution_witness :
    resolveId ⟨["id"], ["pubmed_id", "pmc_id"], true⟩ ⟨some 0, 0⟩
        [("pubmed_id", Val.vint 5)] ⟨[], 1, 42⟩ = Except.ok 42 ∧
    _fetch_id_from_unique_keys ["pubmed_id", "pmc_id"]
        [("pubmed_id", Val.vint 5), ("pmc_id", Val.vnull)]
        [[("id", Val.vint 1), ("pubmed_id", Val.vint 9), ("pmc_id", Val.vnull)]] =
      Except.error DbError.entityNotFound :=
  ⟨(c4_noop_id_resolution ⟨["id"], ["pubmed_id", "pmc_id"], true⟩ ⟨some 0, 0⟩
      [("pubmed_id", Val.vint 5)] ⟨[], 1, 42⟩ rfl).1 rfl,
   (c4_noop_id_resolution ⟨["url_id", "date"], ["pubmed_id", "pmc_id"], false⟩
      ⟨some 0, 0⟩ [("pubmed_id", Val.vint 5), ("pmc_id", Val.vnull)]
      ⟨[[("id", Val.vint 1), ("pubmed_id", Val.vint 9), ("pmc_id", Val.vnull)]], 2, 0⟩
      rfl).2.2 rfl (by decide)⟩

/-! ## Claim theorem for the in-place mutation of the data dictionary (C10) -/

/-- The recursive `insert_into_table('long_text', {'text': v}, ...)` call of
the offload pass is always a fresh insert into an AUTO_INCREMENT table
without unique keys: it returns the new id and appends one row. -/
theorem insert_long_text_vstr (s : String) (lt : TableState) :
    insert_into_table long_text_spec [("text", Val.vstr s)] lt =
      Except.ok (Int.ofNat lt.nextId,
        ⟨lt.rows ++ [[("id", Val.vint (Int.ofNat lt.nextId)), ("text", Val.vstr s)]],
         lt.nextId + 1, Int.ofNat lt.nextId⟩) := by
  have hfind : lt.rows.find? (fun row =>
      conflictsWith ⟨["id"], [], true⟩ [("text", Val.vstr s)] row) = none := by
    rw [List.find?_eq_none]
    intro row _
    simp [conflictsWith, keyMatch, getVal, List.find?]
  by_cases h0 : lt.nextId = 0
  · simp [insert_into_table, _stringify_data, stringifyVal, insertStatement,
      _remove_key_fields, _get_all_keys, long_text_spec, execOnDupUpdate, hfind,
      resolveId, pkFalsy, withIdCol, h0]
  · simp [insert_into_table, _stringify_data, stringifyVal, insertStatement,
      _remove_key_fields, _get_all_keys, long_text_spec, execOnDupUpdate, hfind,
      resolveId, pkFalsy, withIdCol, h0]

/-- The offload pass only appends to the `long_text` table: stored texts
survive the processing of the remaining dictionary entries. -/
theorem filter_long_rows_mono (maxLen : String → Option Nat) :
    ∀ (d : Row) (lt : TableState) (row : Row), row ∈ lt.rows →
      row ∈ ((_filter_long_data maxLen d lt).2).rows := by
  intro d
  induction d with
  | nil =>
      intro lt row h
      simpa [_filter_long_data] using h
  | cons p rest ih =>
      intro lt row h
      obtain ⟨k0, v0⟩ := p
      by_cases hoff : shouldOffload (maxLen k0) v0
      · obtain ⟨t, ht⟩ : ∃ t, v0 = Val.vstr t := by
          cases v0 with
          | vstr t => exact ⟨t, rfl⟩
          | vnull => simp [shouldOffload] at hoff
          | vint n => simp [shouldOffload] at hoff
          | vbool b => simp [shouldOffload] at hoff
          | vlist xs => simp [shouldOffload] at hoff
        subst ht
        simp only [_filter_long_data, hoff, if_true]
        rw [insert_long_text_vstr t lt]
        exact ih ⟨lt.rows ++ [[("id", Val.vint (Int.ofNat lt.nextId)),
            ("text", Val.vstr t)]], lt.nextId + 1, Int.ofNat lt.nextId⟩ row
          (List.mem_append_left _ h)
      · simp only [_filter_long_data, hoff, if_false]
        exact ih lt row h

/-- Core of the offload pass: a dictionary entry holding an overlength string
is replaced by a `long_text(<id>)` token and the original text is stored in
the `long_text` table under that id. -/
theorem filter_long_entry (maxLen : String → Option Nat) :
    ∀ (d : Row) (lt : TableState) (k : String) (s : String) (m : Nat),
      (rowKeys d).Nodup → (k, Val.vstr s) ∈ d → maxLen k = some m → 0 < m →
      m < s.length →
      ∃ i : Int,
        getVal ((_filter_long_data maxLen d lt).1) k =
          some (Val.vstr (longTextToken i)) ∧
        ∃ row ∈ ((_filter_long_data maxLen d lt).2).rows,
          getVal row "id" = some (Val.vint i) ∧
          getVal row "text" = some (Val.vstr s) := by
  intro d
  induction d with
  | nil =>
      intro lt k s m _ hmem
      cases hmem
  | cons p rest ih =>
      intro lt k s m hnd hmem hml hm0 hlen
      obtain ⟨k0, v0⟩ := p
      have hnd := by simpa [rowKeys] using hnd
      have hnd2 : (rowKeys rest).Nodup := by simpa [rowKeys] using hnd.2
      rcases List.mem_cons.mp hmem with hhead | htail
      · obtain ⟨hk0, hv0⟩ : k0 = k ∧ v0 = Val.vstr s := by
          exact ⟨congrArg Prod.fst hhead.symm, congrArg Prod.snd hhead.symm⟩
        subst hk0
        subst hv0
        have hsne : s ≠ "" := by
          intro h
          subst h
          simp at hlen
        have hoff : shouldOffload (maxLen k0) (Val.vstr s) = true := by
          have hm0' : m ≠ 0 := Nat.pos_iff_ne_zero.mp hm0
          simp [shouldOffload, hml, hsne, hm0', hlen]
        simp only [_filter_long_data, hoff, if_true]
        rw [insert_long_text_vstr s lt]
        refine ⟨Int.ofNat lt.nextId, ?_, ?_⟩
        · simp [getVal, List.find?]
        · refine ⟨[("id", Val.vint (Int.ofNat lt.nextId)), ("text", Val.vstr s)],
            ?_, by simp [getVal, List.find?], by simp [getVal, List.find?]⟩
          exact filter_long_rows_mono maxLen rest _ _
            (List.mem_append_right _ (by simp))
      · have hk : k0 ≠ k := by
          intro heq
          exact hnd.1 (Val.vstr s) (heq ▸ htail)
        by_cases hoff : shouldOffload (maxLen k0) v0
        · obtain ⟨t, ht⟩ : ∃ t, v0 = Val.vstr t := by
            cases v0 with
            | vstr t => exact ⟨t, rfl⟩
            | vnull => simp [shouldOffload] at hoff
            | vint n => simp [shouldOffload] at hoff
            | vbool b => simp [shouldOffload] at hoff
            | vlist xs => simp [shouldOffload] at hoff
          subst ht
          simp only [_filter_long_data, hoff, if_true]
          rw [insert_long_text_vstr t lt]
          obtain ⟨i, hget, row, hrow, hid, htext⟩ :=
            ih ⟨lt.rows ++ [[("id", Val.vint (Int.ofNat lt.nextId)),
                ("text", Val.vstr t)]], lt.nextId + 1, Int.ofNat lt.nextId⟩
              k s m hnd2 htail hml hm0 hlen
          refine ⟨i, ?_, row, hrow, hid, htext⟩
          simp only [getVal, List.find?]
          rw [show (k0 == k) = false from by simpa using hk]
          exact hget
        · simp only [_filter_long_data, hoff, if_false]
          obtain ⟨i, hget, row, hrow, hid, htext⟩ :=
            ih lt k s m hnd2 htail hml hm0 hlen
          refine ⟨i, ?_, row, hrow, hid, htext⟩
          simp only [getVal, List.find?]
          rw [show (k0 == k) = false from by simpa using hk]
          exact hget

/-- C10: `insert_into_table` mutates the caller-supplied data mapping in
place — every list value is replaced by its elements joined with `"; "`
before the statement is built, and when `filter_long_data` is enabled every
string value longer than its column's declared maximum is replaced in the
mapping by a `long_text(<id>)` token whose id stores the original text — so
the caller's dictionary does not retain its original values after the call
returns. -/
theorem c10_insert_mutates_caller_data
    (data0 : Row) (lt : TableState) (maxLen : String → Option Nat)
    (hnd : (rowKeys data0).Nodup) :
    (∀ k xs, (k, Val.vlist xs) ∈ data0 →
       getVal (data_after_insert maxLen false data0 lt) k =
         some (Val.vstr (String.intercalate "; " xs)) ∧
       Val.vstr (String.intercalate "; " xs) ≠ Val.vlist xs) ∧
    (∀ k s m, (k, Val.vstr s) ∈ data0 → maxLen k = some m → 0 < m →
       m < s.length →
       ∃ i : Int,
         getVal (data_after_insert maxLen true data0 lt) k =
           some (Val.vstr (longTextToken i)) ∧
         ∃ row ∈ (long_text_after maxLen data0 lt).rows,
           getVal row "id" = some (Val.vint i) ∧
           getVal row "text" = some (Val.vstr s)) := by
  constructor
  · intro k xs hmem
    constructor
    · have h1 : getVal data0 k = some (Val.vlist xs) := getVal_of_mem_nodup hnd hmem
      simp [data_after_insert, getVal_stringify, h1, stringifyVal]
    · simp
  · intro k s m hmem hml hm0 hlen
    have hmem1 : (k, Val.vstr s) ∈ _stringify_data data0 := by
      simpa [stringifyVal] using mem_stringify_of_mem hmem
    have hnd1 : (rowKeys (_stringify_data data0)).Nodup := by
      rw [rowKeys_stringify]; exact hnd
    obtain ⟨i, hget, row, hrow, hid, htext⟩ :=
      filter_long_entry maxLen (_stringify_data data0) lt k s m hnd1 hmem1 hml hm0 hlen
    exact ⟨i, by simpa [data_after_insert] using hget,
      row, by simpa [long_text_after] using hrow, hid, htext⟩

/-- Witness for C10 at a concrete input: a dictionary with a list-valued
`authors` entry and an overlength `title` entry (declared maximum 3). -/
theorem c10_insert_mutates_caller_data_witness :
    (getVal (data_after_insert (fun k => if k = "title" then some 3 else none) false
        [("authors", Val.vlist ["A", "B"]), ("title", Val.vstr "abcdef")] ⟨[], 1, 0⟩)
      "authors" = some (Val.vstr "A; B")) ∧
    (∃ i : Int,
       getVal (data_after_insert (fun k => if k = "title" then some 3 else none) true
           [("authors", Val.vlist ["A", "B"]), ("title", Val.vstr "abcdef")] ⟨[], 1, 0⟩)
         "title" = some (Val.vstr (longTextToken i)) ∧
       ∃ row ∈ (long_text_after (fun k => if k = "title" then some 3 else none)
           [("authors", Val.vlist ["A", "B"]), ("title", Val.vstr "abcdef")]
           ⟨[], 1, 0⟩).rows,
         getVal row "id" = some (Val.vint i) ∧
         getVal row "text" = some (Val.vstr "abcdef")) := by
  have h := c10_insert_mutates_caller_data
    [("authors", Val.vlist ["A", "B"]), ("title", Val.vstr "abcdef")] ⟨[], 1, 0⟩
    (fun k => if k = "title" then some 3 else none) (by decide)
  refine ⟨?_, ?_⟩
  · have := (h.1 "authors" ["A", "B"] (by simp)).1
    simpa using this
  · exact h.2 "title" "abcdef" 3 (by simp) (by simp) (by omega) (by decide)

/-! ## Upsert idempotence (C1) -/

/-- Splitting a successful `find?`: the list decomposes into a failing prefix,
the found element, and a suffix. -/
theorem find?_eq_some_split {α : Type} {p : α → Bool} {l : List α} {a : α}
    (h : l.find? p = some a) :
    ∃ l1 l2, l = l1 ++ a :: l2 ∧ (∀ x ∈ l1, p x = false) ∧ p a = true := by
  induction l with
  | nil => cases h
  | cons b rest ih =>
      rcases hb : p b with _ | _
      · have h2 : rest.find? p = some a := by
          simpa [List.find?_cons, hb] using h
        obtain ⟨l1, l2, heq, hfail, hpa⟩ := ih h2
        exact ⟨b :: l1, l2, by simp [heq], by
          intro x hx
          rcases List.mem_cons.mp hx with h | h
          · exact h ▸ hb
          · exact hfail x h, hpa⟩
      · have : b = a := by simpa [List.find?_cons, hb] using h
        exact ⟨[], rest, by simp [this], by simp, this ▸ hb⟩

/-- `replaceFirst` on a list whose prefix fails the predicate and whose head
of the suffix satisfies it replaces exactly that element. -/
theorem replaceFirst_split {α : Type} {p : α → Bool} {newRow : α} (l1 l2 : List α)
    (a : α) (hfail : ∀ x ∈ l1, p x = false) (hpa : p a = true) :
    replaceFirst p newRow (l1 ++ a :: l2) = l1 ++ newRow :: l2 := by
  induction l1 with
  | nil => simp [replaceFirst, hpa]
  | cons b rest ih =>
      have hb : p b = false := hfail b (by simp)
      simp only [List.cons_append, replaceFirst, hb, Bool.false_eq_true, if_false]
      rw [show rest ++ a :: l2 = rest.append (a :: l2) from rfl] at ih
      rw [ih (fun x hx => hfail x (by simp [hx]))]

/-- Dropping the `id` entries of a row does not change lookups at other
columns. -/
theorem getVal_filter_not_id (d : Row) (c : String) (hc : c ≠ "id") :
    getVal (d.filter (fun p => !(p.1 == "id"))) c = getVal d c := by
  induction d with
  | nil => rfl
  | cons p rest ih =>
      obtain ⟨k0, v0⟩ := p
      by_cases hk : k0 = "id"
      · have hkc : k0 ≠ c := fun h => hc (h ▸ hk)
        rw [List.filter_cons_of_neg (by simp [hk]), getVal_cons_ne hkc]
        exact ih
      · rw [List.filter_cons_of_pos (by simpa using hk)]
        by_cases hkc : k0 = c
        · subst hkc
          rw [getVal_cons_eq, getVal_cons_eq]
        · rw [getVal_cons_ne hkc, getVal_cons_ne hkc]
          exact ih

/-- Lookup in `withIdCol` at a column other than `id` sees the original data. -/
theorem getVal_withIdCol_ne (d : Row) (n : Nat) (c : String) (hc : c ≠ "id") :
    getVal (withIdCol d n) c = getVal d c := by
  unfold withIdCol
  rw [getVal_cons_ne (fun h => hc h.symm)]
  exact getVal_filter_not_id d c hc

/-- The `id` column of a freshly stored AUTO_INCREMENT row. -/
theorem getVal_withIdCol_id (d : Row) (n : Nat) :
    getVal (withIdCol d n) "id" = some (Val.vint (Int.ofNat n)) := by
  unfold withIdCol
  exact getVal_cons_eq

/-- Entries of the update list come from the data, avoid key columns, and are
non-NULL. -/
theorem mem_remove_key_fields {ts : TableSpec} {d : Row} {k : String} {w : Val}
    (h : (k, w) ∈ _remove_key_fields ts d) :
    (k, w) ∈ d ∧ k ∉ _get_all_keys ts ∧ w ≠ Val.vnull := by
  obtain ⟨hmem, hcond⟩ := List.mem_filter.mp h
  have hcond2 : k ∉ _get_all_keys ts ∧ ¬ w = Val.vnull := by simpa using hcond
  exact ⟨hmem, hcond2.1, hcond2.2⟩

/-- The update list never binds a key column. -/
theorem getVal_remove_key_fields_none (ts : TableSpec) (d : Row) (c : String)
    (hc : c ∈ _get_all_keys ts) :
    getVal (_remove_key_fields ts d) c = none := by
  induction d with
  | nil => rfl
  | cons p rest ih =>
      obtain ⟨k0, v0⟩ := p
      by_cases hk : k0 = c
      · subst hk
        rw [show _remove_key_fields ts ((k0, v0) :: rest) =
            _remove_key_fields ts rest from by
          simp [_remove_key_fields, List.filter_cons, hc]]
        exact ih
      · simp only [_remove_key_fields, List.filter_cons] at ih ⊢
        rcases hcond : (!((_get_all_keys ts).contains k0) && !(v0 == Val.vnull)) with _ | _
        · simpa [hcond] using ih
        · simp only [hcond, if_true]
          rw [getVal_cons_ne hk]
          exact ih

/-- `applyUpdate` leaves columns that the update list does not bind unchanged. -/
theorem getVal_applyUpdate_of_none (row upd : Row) (c : String)
    (h : getVal upd c = none) :
    getVal (applyUpdate row upd) c = getVal row c := by
  induction row with
  | nil => rfl
  | cons p rest ih =>
      obtain ⟨k0, v0⟩ := p
      by_cases hkc : k0 = c
      · subst hkc
        simp only [applyUpdate, List.map_cons, h]
        rw [getVal_cons_eq, getVal_cons_eq]
      · simp only [applyUpdate, List.map_cons]
        rcases hv : getVal upd k0 with _ | w
        · simp only [hv]
          rw [getVal_cons_ne hkc, getVal_cons_ne hkc]
          exact ih
        · simp only [hv]
          rw [getVal_cons_ne hkc, getVal_cons_ne hkc]
          exact ih

theorem insert_into_table_eq_core (ts : TableSpec) (data : Row) (st : TableState) :
    insert_into_table ts data st = insert_core ts (_stringify_data data) st := rfl

/-- With a NULL (or absent) `id` in the data, a primary-key conflict on a
surrogate-key table is impossible. -/
theorem keyMatch_id_false {d : Row}
    (hid : getVal d "id" = some Val.vnull ∨ getVal d "id" = none) (row : Row) :
    keyMatch ["id"] d row = false := by
  rcases hid with h | h <;> simp [keyMatch, h]

/-- A row that conflicts on the unique key agrees with the data on every
unique-key column. -/
theorem keyMatch_getVal {uk : List String} {d row : Row}
    (h : keyMatch uk d row = true) :
    ∀ c ∈ uk, getVal row c = getVal d c := by
  intro c hc
  unfold keyMatch at h
  rw [Bool.and_eq_true, List.all_eq_true] at h
  have h2 := h.2 c hc
  rcases hv : getVal d c with _ | v
  · rw [hv] at h2
    cases h2
  · rw [hv] at h2
    rw [Bool.and_eq_true] at h2
    have h3 : getVal row c = some v := by simpa using h2.2
    exact h3

/-- A row that holds the data's (non-NULL) unique-key values conflicts. -/
theorem keyMatch_of_vals {uk : List String} {d row : Row} (huk : uk ≠ [])
    (hvals : ∀ c ∈ uk, ∃ v, getVal d c = some v ∧ v ≠ Val.vnull)
    (hrow : ∀ c ∈ uk, getVal row c = getVal d c) :
    keyMatch uk d row = true := by
  unfold keyMatch
  rw [Bool.and_eq_true, List.all_eq_true]
  constructor
  · simpa using huk
  · intro c hc
    obtain ⟨v, hv, hvn⟩ := hvals c hc
    rw [hv]
    simp [hrow c hc, hv, hvn]

/-- Re-applying the update of a no-conflict insert to the freshly stored row
changes nothing: MySQL reports zero affected rows on the duplicate call. -/
theorem noChange_withIdCol {uk : List String} {d : Row} (n : Nat)
    (hnd : (rowKeys d).Nodup) :
    noChangeUpdate (withIdCol d n)
      (_remove_key_fields ⟨["id"], uk, true⟩ d) = true := by
  rw [noChangeUpdate, List.all_eq_true]
  intro q hq
  obtain ⟨k0, w0⟩ := q
  obtain ⟨hmem, hknotin, _⟩ := mem_remove_key_fields hq
  have hkne : k0 ≠ "id" := fun h => hknotin (by simp [_get_all_keys, h])
  rw [getVal_withIdCol_ne d n k0 hkne, getVal_of_mem_nodup hnd hmem]
  simp

/-- One fresh upsert: no conflicting row means a plain AUTO_INCREMENT insert
returning the new id. -/
theorem insert_core_fresh (uk : List String) (d : Row) (st : TableState)
    (hidd : getVal d "id" = some Val.vnull ∨ getVal d "id" = none)
    (hdnp : _remove_key_fields ⟨["id"], uk, true⟩ d ≠ [])
    (hfind : st.rows.find? (fun row => keyMatch uk d row) = none)
    (hnz : 0 < st.nextId) :
    insert_core ⟨["id"], uk, true⟩ d st =
      Except.ok (Int.ofNat st.nextId,
        ⟨st.rows ++ [withIdCol d st.nextId], st.nextId + 1, Int.ofNat st.nextId⟩) := by
  have hpred : (fun row => conflictsWith ⟨["id"], uk, true⟩ d row) =
      (fun row => keyMatch uk d row) :=
    funext fun row => by simp [conflictsWith, keyMatch_id_false hidd row]
  have hempty : (_remove_key_fields ⟨["id"], uk, true⟩ d).isEmpty = false := by
    rcases h : _remove_key_fields ⟨["id"], uk, true⟩ d with _ | _
    · exact absurd h hdnp
    · rfl
  have hnzpk : (Int.ofNat st.nextId == 0) = false := by
    simpa using by omega
  simp only [insert_core, insertStatement, hempty, Bool.false_eq_true, if_false,
    execOnDupUpdate, hpred, hfind, resolveId, pkFalsy]
  simp [hnzpk]

/-- One conflicting upsert: the statement touches exactly the conflicting row,
leaves its key columns and id unchanged, and the resolved id is the existing
row's id — whether the row changed (affected rows 2) or not (affected rows 0,
resolved through the `LAST_INSERT_ID` workaround). -/
theorem insert_core_conflict (uk : List String) (d : Row) (st : TableState)
    (l1 l2 : List Row) (row0 : Row) (n : Nat)
    (hidd : getVal d "id" = some Val.vnull ∨ getVal d "id" = none)
    (hdnp : _remove_key_fields ⟨["id"], uk, true⟩ d ≠ [])
    (hsplit : st.rows = l1 ++ row0 :: l2)
    (hfail : ∀ x ∈ l1, keyMatch uk d x = false)
    (hmatch : keyMatch uk d row0 = true)
    (hrid : getVal row0 "id" = some (Val.vint (Int.ofNat n)))
    (hn : 0 < n) :
    ∃ r1, insert_core ⟨["id"], uk, true⟩ d st =
        Except.ok (Int.ofNat n, ⟨l1 ++ r1 :: l2, st.nextId, Int.ofNat n⟩) ∧
      (∀ c ∈ uk, getVal r1 c = getVal row0 c) ∧
      getVal r1 "id" = getVal row0 "id" := by
  have hpred : (fun row => conflictsWith ⟨["id"], uk, true⟩ d row) =
      (fun row => keyMatch uk d row) :=
    funext fun row => by simp [conflictsWith, keyMatch_id_false hidd row]
  have hempty : (_remove_key_fields ⟨["id"], uk, true⟩ d).isEmpty = false := by
    rcases h : _remove_key_fields ⟨["id"], uk, true⟩ d with _ | _
    · exact absurd h hdnp
    · rfl
  have hfind : st.rows.find? (fun row => keyMatch uk d row) = some row0 := by
    rw [hsplit, List.find?_append]
    rw [List.find?_eq_none.mpr (fun x hx => by simp [hfail x hx])]
    simp [List.find?_cons, hmatch]
  have hridint : rowIdInt row0 = Int.ofNat n := by
    simp [rowIdInt, hrid]
  have hnzpk : (Int.ofNat n == 0) = false := by
    simpa using by omega
  set dnp := _remove_key_fields ⟨["id"], uk, true⟩ d with hdnpdef
  have hupdgv : ∀ c ∈ uk, getVal (applyUpdate row0 dnp) c = getVal row0 c := by
    intro c hc
    exact getVal_applyUpdate_of_none row0 dnp c
      (getVal_remove_key_fields_none _ d c (by simp [_get_all_keys, hc]))
  have hupdid : getVal (applyUpdate row0 dnp) "id" = getVal row0 "id" :=
    getVal_applyUpdate_of_none row0 dnp "id"
      (getVal_remove_key_fields_none _ d "id" (by simp [_get_all_keys]))
  rcases hnc : noChangeUpdate row0 dnp with _ | _
  · refine ⟨applyUpdate row0 dnp, ?_, hupdgv, hupdid⟩
    have hrepl : replaceFirst (fun row => keyMatch uk d row)
        (applyUpdate row0 dnp) st.rows = l1 ++ applyUpdate row0 dnp :: l2 := by
      rw [hsplit]
      exact replaceFirst_split l1 l2 row0 hfail hmatch
    simp only [insert_core, insertStatement, ← hdnpdef, hempty, Bool.false_eq_true,
      if_false, execOnDupUpdate, hpred, hfind, hnc, hridint, hrepl, resolveId,
      pkFalsy, hnzpk]
    simp [hsplit]
  · refine ⟨row0, ?_, fun c _ => rfl, rfl⟩
    simp only [insert_core, insertStatement, ← hdnpdef, hempty, Bool.false_eq_true,
      if_false, execOnDupUpdate, hpred, hfind, hnc, hridint, resolveId, pkFalsy,
      hnzpk]
    simp [hsplit]

/-- C1 (counterexample): the claim quantifies over every table, but on a
pure-key junction table the first call returns the first primary-key value
while the duplicate call falls into the zero-affected-rows branch, has no
unique keys to re-query, and returns the sentinel 0; and on a table whose
unique-key columns are NULL in the data (here `publication` with NULL
`pubmed_id`/`pmc_id`), MySQL unique indexes never conflict on NULL, so the
second identical call inserts a second row under a fresh id. -/
theorem c1_upsert_idempotence_counterexample :
    (insert_into_table ⟨["resource_id", "publication_id"], [], false⟩
        [("resource_id", Val.vint 5), ("publication_id", Val.vint 7)] ⟨[], 1, 0⟩ =
      Except.ok (5, ⟨[[("resource_id", Val.vint 5), ("publication_id", Val.vint 7)]], 1, 0⟩)) ∧
    (insert_into_table ⟨["resource_id", "publication_id"], [], false⟩
        [("resource_id", Val.vint 5), ("publication_id", Val.vint 7)]
        ⟨[[("resource_id", Val.vint 5), ("publication_id", Val.vint 7)]], 1, 0⟩ =
      Except.ok (0, ⟨[[("resource_id", Val.vint 5), ("publication_id", Val.vint 7)]], 1, 0⟩)) ∧
    (insert_into_table ⟨["id"], ["pubmed_id", "pmc_id"], true⟩
        [("id", Val.vnull), ("pubmed_id", Val.vnull), ("pmc_id", Val.vnull),
         ("title", Val.vstr "T"), ("authors", Val.vstr "A"), ("citation_count", Val.vint 0)]
        ⟨[], 1, 0⟩ =
      Except.ok (1,
        ⟨[[("id", Val.vint 1), ("pubmed_id", Val.vnull), ("pmc_id", Val.vnull),
           ("title", Val.vstr "T"), ("authors", Val.vstr "A"), ("citation_count", Val.vint 0)]],
         2, 1⟩)) ∧
    (insert_into_table ⟨["id"], ["pubmed_id", "pmc_id"], true⟩
        [("id", Val.vnull), ("pubmed_id", Val.vnull), ("pmc_id", Val.vnull),
         ("title", Val.vstr "T"), ("authors", Val.vstr "A"), ("citation_count", Val.vint 0)]
        ⟨[[("id", Val.vint 1), ("pubmed_id", Val.vnull), ("pmc_id", Val.vnull),
           ("title", Val.vstr "T"), ("authors", Val.vstr "A"), ("citation_count", Val.vint 0)]],
         2, 1⟩ =
      Except.ok (2,
        ⟨[[("id", Val.vint 1), ("pubmed_id", Val.vnull), ("pmc_id", Val.vnull),
           ("title", Val.vstr "T"), ("authors", Val.vstr "A"), ("citation_count", Val.vint 0)],
          [("id", Val.vint 2), ("pubmed_id", Val.vnull), ("pmc_id", Val.vnull),
           ("title", Val.vstr "T"), ("authors", Val.vstr "A"), ("citation_count", Val.vint 0)]],
         3, 2⟩)) := by
  refine ⟨?_, ?_, ?_, ?_⟩ <;> rfl

/-- C1 (amended): for tables with the single AUTO_INCREMENT primary key `id`
and a nonempty unique key, when the data supplies a non-NULL value for every
unique-key column, has at least one non-key non-NULL column, and carries no
id of its own, two identical `insert_into_table` calls return the same id,
the second call creates no new row, and exactly one stored row matches the
data's unique key — the second (racing) caller falls through the
zero-affected-rows branch and resolves the first caller's id. -/
theorem c1_upsert_idempotent_amended
    (uk : List String) (data : Row) (st : TableState)
    (huk : uk ≠ []) (hidnuk : "id" ∉ uk)
    (hid : getVal data "id" = some Val.vnull ∨ getVal data "id" = none)
    (hvals : ∀ c ∈ uk, ∃ v, getVal (_stringify_data data) c = some v ∧ v ≠ Val.vnull)
    (hdnp : _remove_key_fields ⟨["id"], uk, true⟩ (_stringify_data data) ≠ [])
    (hwf : ∀ row ∈ st.rows, ∃ n : Nat,
      getVal row "id" = some (Val.vint (Int.ofNat n)) ∧ 0 < n)
    (hcons : (st.rows.filter
      (fun row => keyMatch uk (_stringify_data data) row)).length ≤ 1)
    (hnz : 0 < st.nextId) :
    ∃ i1 st1 i2 st2,
      insert_into_table ⟨["id"], uk, true⟩ data st = Except.ok (i1, st1) ∧
      insert_into_table ⟨["id"], uk, true⟩ data st1 = Except.ok (i2, st2) ∧
      i2 = i1 ∧
      st2.rows.length = st1.rows.length ∧
      (st2.rows.filter
        (fun row => keyMatch uk (_stringify_data data) row)).length = 1 := by
  set d := _stringify_data data with hddef
  have hidd : getVal d "id" = some Val.vnull ∨ getVal d "id" = none := by
    rcases hid with h | h
    · left
      rw [hddef, getVal_stringify, h]
      rfl
    · right
      rw [hddef, getVal_stringify, h]
      rfl
  rcases hfind : st.rows.find? (fun row => keyMatch uk d row) with _ | row0
  · -- no conflicting row: fresh insert, duplicate resolves the fresh id
    have h1 := insert_core_fresh uk d st hidd hdnp hfind hnz
    have hnrvals : ∀ c ∈ uk, getVal (withIdCol d st.nextId) c = getVal d c :=
      fun c hc => getVal_withIdCol_ne d st.nextId c (fun h => hidnuk (h ▸ hc))
    have hnrmatch : keyMatch uk d (withIdCol d st.nextId) = true :=
      keyMatch_of_vals huk hvals hnrvals
    have hfail1 : ∀ x ∈ st.rows, keyMatch uk d x = false := by
      intro x hx
      have := List.find?_eq_none.mp hfind x hx
      simpa using this
    obtain ⟨r1, h2eq, h2vals, h2id⟩ :=
      insert_core_conflict uk d
        ⟨st.rows ++ [withIdCol d st.nextId], st.nextId + 1, Int.ofNat st.nextId⟩
        st.rows [] (withIdCol d st.nextId) st.nextId hidd hdnp rfl hfail1
        hnrmatch (getVal_withIdCol_id d st.nextId) hnz
    refine ⟨Int.ofNat st.nextId,
      ⟨st.rows ++ [withIdCol d st.nextId], st.nextId + 1, Int.ofNat st.nextId⟩,
      Int.ofNat st.nextId,
      ⟨st.rows ++ r1 :: [], st.nextId + 1, Int.ofNat st.nextId⟩, ?_, ?_, rfl, ?_, ?_⟩
    · rw [insert_into_table_eq_core, ← hddef]
      exact h1
    · rw [insert_into_table_eq_core, ← hddef]
      exact h2eq
    · simp
    · have hr1match : keyMatch uk d r1 = true :=
        keyMatch_of_vals huk hvals
          (fun c hc => (h2vals c hc).trans (hnrvals c hc))
      have hnil : st.rows.filter (fun row => keyMatch uk d row) = [] :=
        List.filter_eq_nil_iff.mpr (fun x hx => by simp [hfail1 x hx])
      simp [List.filter_append, List.filter_cons, hnil, hr1match]
  · -- a conflicting row exists: both calls resolve its id
    obtain ⟨l1, l2, hsplit, hfail, hmatch⟩ := find?_eq_some_split hfind
    have hrow0mem : row0 ∈ st.rows := by
      rw [hsplit]
      simp
    obtain ⟨n, hrid, hn⟩ := hwf row0 hrow0mem
    obtain ⟨r1, h1eq, h1vals, h1id⟩ :=
      insert_core_conflict uk d st l1 l2 row0 n hidd hdnp hsplit hfail hmatch hrid hn
    have hr1match : keyMatch uk d r1 = true :=
      keyMatch_of_vals huk hvals
        (fun c hc => (h1vals c hc).trans (keyMatch_getVal hmatch c hc))
    have hr1id : getVal r1 "id" = some (Val.vint (Int.ofNat n)) := h1id.trans hrid
    obtain ⟨r2, h2eq, h2vals, h2id⟩ :=
      insert_core_conflict uk d ⟨l1 ++ r1 :: l2, st.nextId, Int.ofNat n⟩ l1 l2 r1 n
        hidd hdnp rfl hfail hr1match hr1id hn
    have hr2match : keyMatch uk d r2 = true :=
      keyMatch_of_vals huk hvals
        (fun c hc => (h2vals c hc).trans
          ((h1vals c hc).trans (keyMatch_getVal hmatch c hc)))
    have hl1nil : l1.filter (fun row => keyMatch uk d row) = [] :=
      List.filter_eq_nil_iff.mpr (fun x hx => by simp [hfail x hx])
    have hl2nil : l2.filter (fun row => keyMatch uk d row) = [] := by
      rw [hsplit] at hcons
      simp [List.filter_append, List.filter_cons, hl1nil, hmatch] at hcons
      exact List.filter_eq_nil_iff.mpr (fun x hx => by simp [hcons x hx])
    refine ⟨Int.ofNat n, ⟨l1 ++ r1 :: l2, st.nextId, Int.ofNat n⟩,
      Int.ofNat n, ⟨l1 ++ r2 :: l2, st.nextId, Int.ofNat n⟩, ?_, ?_, rfl, ?_, ?_⟩
    · rw [insert_into_table_eq_core, ← hddef]
      exact h1eq
    · rw [insert_into_table_eq_core, ← hddef]
      exact h2eq
    · simp
    · simp [List.filter_append, List.filter_cons, hl1nil, hl2nil, hr2match]

/-- Witness for the amended C1 at a concrete input: upserting a `url`-shaped
row twice into an empty table. -/
theorem c1_upsert_idempotent_amended_witness :
    ∃ i1 st1 i2 st2,
      insert_into_table ⟨["id"], ["url"], true⟩
          [("id", Val.vnull), ("url", Val.vstr "http://x"),
           ("url_country", Val.vstr "GB")] ⟨[], 1, 0⟩ = Except.ok (i1, st1) ∧
      insert_into_table ⟨["id"], ["url"], true⟩
          [("id", Val.vnull), ("url", Val.vstr "http://x"),
           ("url_country", Val.vstr "GB")] st1 = Except.ok (i2, st2) ∧
      i2 = i1 ∧
      st2.rows.length = st1.rows.length ∧
      (st2.rows.filter (fun row => keyMatch ["url"]
        (_stringify_data [("id", Val.vnull), ("url", Val.vstr "http://x"),
          ("url_country", Val.vstr "GB")]) row)).length = 1 :=
  c1_upsert_idempotent_amended ["url"]
    [("id", Val.vnull), ("url", Val.vstr "http://x"), ("url_country", Val.vstr "GB")]
    ⟨[], 1, 0⟩ (by decide) (by decide) (Or.inl rfl)
    (by
      intro c hc
      have hc2 : c = "url" := by simpa using hc
      subst hc2
      exact ⟨Val.vstr "http://x", rfl, by decide⟩)
    (by decide) (by intro row hrow; cases hrow) (by decide) (by decide)

/-! ## Claim theorem for the Delete Engine (C9) -/

/-- C9 (failing input): `delete_from_table` on a connection that is already
inside a transaction executes the delete but then calls `.commit()` on
`trans = None` and raises `AttributeError` instead of returning the
affected-row count; outside a transaction it commits and returns the count as
the claim states. -/
theorem c9_delete_in_open_transaction_raises :
    delete_from_table true [("id", Val.vint 1)]
        [[("id", Val.vint 1)], [("id", Val.vint 2)]] =
      Except.error DbError.noneTypeCommit ∧
    delete_from_table false [("id", Val.vint 1)]
        [[("id", Val.vint 1)], [("id", Val.vint 2)]] =
      Except.ok (1, [[("id", Val.vint 2)]]) := by
  constructor <;> rfl

/-! ## The auxiliary writers never touch the resource table -/

theorem connectionStatusWrite_resource (c : ConnectionStatus) (db : Db) :
    (connectionStatusWrite c db).resource = db.resource := by
  unfold connectionStatusWrite
  cases c.url_id with
  | none => rfl
  | some uid =>
      dsimp only
      split <;> split <;> rfl

theorem foldl_connectionStatusWrite_resource (l : List ConnectionStatus)
    (db : Db) :
    (l.foldl (fun acc c => connectionStatusWrite c acc) db).resource
      = db.resource := by
  induction l generalizing db with
  | nil => rfl
  | cons c t ih =>
      simp only [List.foldl_cons]
      rw [ih, connectionStatusWrite_resource]

theorem urlWrite_resource (u : URLObj) (db : Db) :
    (urlWrite u db).2.2.resource = db.resource := by
  unfold urlWrite
  dsimp only
  rw [foldl_connectionStatusWrite_resource]
  split <;> rfl

theorem versionWrite_resource (v : VersionObj) (db : Db) :
    (versionWrite v db).2.2.resource = db.resource := by
  unfold versionWrite
  dsimp only
  split <;> rfl

theorem offloadField_resource (maxLen : String → Option Nat) (col : String)
    (v : Option String) (db : Db) :
    (offloadField maxLen col v db).2.resource = db.resource := by
  unfold offloadField
  cases v with
  | none => rfl
  | some s =>
      dsimp only
      split <;> rfl

theorem grantAgencyWrite_resource (maxLen : String → String → Option Nat)
    (ga : GrantAgencyObj) (db : Db) :
    (grantAgencyWrite maxLen ga db).2.2.resource = db.resource := by
  unfold grantAgencyWrite
  rcases h1 : offloadField (maxLen "grant_agency") "name" ga.name db
    with ⟨nm, db1⟩
  have e1 : db1.resource = db.resource := by
    have h := offloadField_resource (maxLen "grant_agency") "name" ga.name db
    rw [h1] at h
    exact h
  dsimp only
  rcases h2 : offloadField (maxLen "grant_agency") "country" ga.country db1
    with ⟨ct, db2⟩
  have e2 : db2.resource = db1.resource := by
    have h := offloadField_resource (maxLen "grant_agency") "country" ga.country db1
    rw [h2] at h
    exact h
  dsimp only
  split <;> dsimp only <;> rw [e2, e1]

theorem grantWrite_resource (maxLen : String → String → Option Nat)
    (g : GrantObj) (db : Db) :
    (grantWrite maxLen g db).2.2.resource = db.resource := by
  unfold grantWrite
  dsimp only
  by_cases hg : idTruthy g.grant_agency.id = true
  · simp only [hg, if_true]
    split <;> rfl
  · simp only [hg, Bool.false_eq_true, if_false]
    split <;> dsimp only <;> rw [grantAgencyWrite_resource]

theorem publicationGrantsWrite_resource (maxLen : String → String → Option Nat)
    (pid : Nat) (gs : List GrantObj) (db : Db) :
    (publicationGrantsWrite maxLen pid gs db).2.resource = db.resource := by
  induction gs generalizing db with
  | nil => rfl
  | cons g rest ih =>
      unfold publicationGrantsWrite
      dsimp only
      rw [ih]
      dsimp only
      by_cases hg : idTruthy g.id = true
      · simp only [hg, if_true]
      · simp only [hg, Bool.false_eq_true, if_false]
        rw [grantWrite_resource]

theorem resourceGrantsWrite_resource (maxLen : String → String → Option Nat)
    (rid : Nat) (gs : List GrantObj) (db : Db) :
    (resourceGrantsWrite maxLen rid gs db).2.resource = db.resource := by
  induction gs generalizing db with
  | nil => rfl
  | cons g rest ih =>
      unfold resourceGrantsWrite
      dsimp only
      rw [ih]
      dsimp only
      by_cases hg : idTruthy g.id = true
      · simp only [hg, if_true]
      · simp only [hg, Bool.false_eq_true, if_false]
        rw [grantWrite_resource]

theorem publicationWrite_resource (maxLen : String → String → Option Nat)
    (p : PublicationObj) (db : Db) (pid : Nat) (p2 : PublicationObj) (dbo : Db)
    (h : publicationWrite maxLen p db = Except.ok (pid, p2, dbo)) :
    dbo.resource = db.resource := by
  unfold publicationWrite at h
  split at h
  · exact absurd h (by simp)
  · cases h1 : offloadField (maxLen "publication") "title" p.title db with
    | mk t1 dbA =>
    rw [h1] at h
    have e1 : dbA.resource = db.resource := by
      have e := offloadField_resource (maxLen "publication") "title" p.title db
      rw [h1] at e
      exact e
    dsimp only at h
    cases h2 : offloadField (maxLen "publication") "pmc_id" p.pmc_id dbA with
    | mk pm1 dbB =>
    rw [h2] at h
    have e2 : dbB.resource = dbA.resource := by
      have e := offloadField_resource (maxLen "publication") "pmc_id" p.pmc_id dbA
      rw [h2] at e
      exact e
    dsimp only at h
    cases h3 : offloadField (maxLen "publication") "authors" p.authors dbB with
    | mk au1 dbC =>
    rw [h3] at h
    have e3 : dbC.resource = dbB.resource := by
      have e := offloadField_resource (maxLen "publication") "authors" p.authors dbB
      rw [h3] at e
      exact e
    dsimp only at h
    cases h4 : offloadField (maxLen "publication") "affiliation" p.affiliation dbC
      with
    | mk af1 dbD =>
    rw [h4] at h
    have e4 : dbD.resource = dbC.resource := by
      have e := offloadField_resource (maxLen "publication") "affiliation"
        p.affiliation dbC
      rw [h4] at e
      exact e
    dsimp only at h
    cases h5 : offloadField (maxLen "publication") "affiliation_countries"
        p.affiliation_countries dbD with
    | mk ac1 dbE =>
    rw [h5] at h
    have e5 : dbE.resource = dbD.resource := by
      have e := offloadField_resource (maxLen "publication") "affiliation_countries"
        p.affiliation_countries dbD
      rw [h5] at e
      exact e
    dsimp only at h
    cases h6 : offloadField (maxLen "publication") "keywords" p.keywords dbE with
    | mk kw1 dbF =>
    rw [h6] at h
    have e6 : dbF.resource = dbE.resource := by
      have e := offloadField_resource (maxLen "publication") "keywords"
        p.keywords dbE
      rw [h6] at e
      exact e
    dsimp only at h
    have ebase : dbF.resource = db.resource := by rw [e6, e5, e4, e3, e2, e1]
    repeat' split at h
    all_goals
      simp only [Except.ok.injEq, Prod.mk.injEq] at h
    all_goals
      rw [← h.2.2]
    all_goals
      try rw [publicationGrantsWrite_resource]
    all_goals
      dsimp only
    all_goals
      rw [ebase]

theorem resourcePublicationsWrite_resource (maxLen : String → String → Option Nat)
    (rid : Nat) (ps : List (Option PublicationObj)) (db : Db)
    (ps2 : List (Option PublicationObj)) (dbo : Db)
    (h : resourcePublicationsWrite maxLen rid ps db = Except.ok (ps2, dbo)) :
    dbo.resource = db.resource := by
  induction ps generalizing db ps2 dbo with
  | nil =>
      unfold resourcePublicationsWrite at h
      simp only [Except.ok.injEq, Prod.mk.injEq] at h
      rw [← h.2]
  | cons po rest ih =>
      cases po with
      | none =>
          unfold resourcePublicationsWrite at h
          exact absurd h (by simp)
      | some p =>
          unfold resourcePublicationsWrite at h
          split at h
          · exact absurd h (by simp)
          · rename_i pid p2 db1 heq
            dsimp only at h
            split at h
            · exact absurd h (by simp)
            · rename_i rest2 db3 heq2
              simp only [Except.ok.injEq, Prod.mk.injEq] at h
              rw [← h.2]
              have hdb3 := ih _ _ _ heq2
              dsimp only at hdb3
              rw [hdb3]
              by_cases hp : idTruthy p.id = true
              · rw [if_pos hp] at heq
                simp only [Except.ok.injEq, Prod.mk.injEq] at heq
                rw [← heq.2.2]
              · rw [if_neg hp] at heq
                exact publicationWrite_resource maxLen p db pid p2 db1 heq

/-! ## The is_latest flip of Resource.write -/

theorem flip_unmarked (sn : String) (l : List ResourceRow) :
    ∀ row ∈ l.map (fun q => if q.short_name == some sn
        then { q with is_latest := some false } else q),
      (row.short_name == some sn && row.is_latest == some true) = false := by
  intro row hrow
  rcases List.mem_map.mp hrow with ⟨orig, _, heq⟩
  subst heq
  rcases h : orig.short_name == some sn with _ | _
  · simp [h]
  · simp [h]

theorem marked_of_replaceFirst (sn : String) (p : ResourceRow → Bool)
    (flipped : List ResourceRow)
    (hunmarked : ∀ row ∈ flipped,
      (row.short_name == some sn && row.is_latest == some true) = false)
    (row : ResourceRow) (hfind : flipped.find? p = some row)
    (nr : ResourceRow) (hsn2 : (nr.short_name == some sn) = true)
    (hlat2 : nr.is_latest = some true) :
    ((replaceFirst p nr flipped).filter (fun q =>
        q.short_name == some sn && q.is_latest == some true)).map
      (fun q => q.id) = [nr.id] := by
  obtain ⟨l1, l2, heq, hfail, hpa⟩ := find?_eq_some_split hfind
  subst heq
  rw [replaceFirst_split l1 l2 row hfail hpa]
  rw [List.filter_append]
  have hnr : (nr.short_name == some sn && nr.is_latest == some true) = true := by
    rw [hlat2]
    simp [hsn2]
  have h1 : l1.filter (fun q =>
      q.short_name == some sn && q.is_latest == some true) = [] :=
    List.filter_eq_nil_iff.mpr (fun x hx => by
      simp [hunmarked x (List.mem_append_left _ hx)])
  have h2 : l2.filter (fun q =>
      q.short_name == some sn && q.is_latest == some true) = [] :=
    List.filter_eq_nil_iff.mpr (fun x hx => by
      simp [hunmarked x (List.mem_append_right _ (List.mem_cons_of_mem _ hx))])
  rw [h1]
  simp [List.filter_cons, hnr, h2]

theorem marked_of_append (sn : String) (flipped : List ResourceRow)
    (hunmarked : ∀ row ∈ flipped,
      (row.short_name == some sn && row.is_latest == some true) = false)
    (nr : ResourceRow) (hsn2 : (nr.short_name == some sn) = true)
    (hlat2 : nr.is_latest = some true) :
    ((flipped ++ [nr]).filter (fun q =>
        q.short_name == some sn && q.is_latest == some true)).map
      (fun q => q.id) = [nr.id] := by
  rw [List.filter_append]
  have hnr : (nr.short_name == some sn && nr.is_latest == some true) = true := by
    rw [hlat2]
    simp [hsn2]
  have h1 : flipped.filter (fun q =>
      q.short_name == some sn && q.is_latest == some true) = [] :=
    List.filter_eq_nil_iff.mpr (fun x hx => by simp [hunmarked x hx])
  rw [h1]
  simp [List.filter_cons, hnr]

/-! ## Claim theorem for connection-status ordering (C8) -/

theorem pairwise_filter_singleton_getLast {α : Type} (le : α → α → Bool)
    (p : α → Bool) (m : α) (hdom : ∀ x, p x = false → le m x = false)
    (L : List α) :
    L.Pairwise (fun a b => le a b = true) → L.filter p = [m] →
      L.getLast? = some m := by
  induction L with
  | nil => intro _ hf; simp at hf
  | cons a t ih =>
      intro hpw hf
      rcases List.pairwise_cons.mp hpw with ⟨ha, ht⟩
      by_cases hpa : p a = true
      · have hf2 : a :: t.filter p = [m] := by
          simpa [List.filter_cons, hpa] using hf
        have ham : a = m := (List.cons_eq_cons.mp hf2).1
        have htf : t.filter p = [] := (List.cons_eq_cons.mp hf2).2
        cases t with
        | nil => simp [ham]
        | cons b t' =>
            exfalso
            have hpb : p b = false := by
              have := List.filter_eq_nil_iff.mp htf b (List.mem_cons_self b t')
              simpa using this
            have h1 : le a b = true := ha b (List.mem_cons_self b t')
            have h2 : le m b = false := hdom b hpb
            rw [ham] at h1
            rw [h1] at h2
            exact Bool.noConfusion h2
      · have hpa' : p a = false := by simpa using hpa
        have hf2 : t.filter p = [m] := by
          simpa [List.filter_cons, hpa'] using hf
        have hlast : t.getLast? = some m := ih ht hf2
        cases t with
        | nil => simp at hf2
        | cons b t' => simpa [List.getLast?_cons_cons] using hlast

/-- C8: for a URL with at least one stored connection status, of which
exactly one is marked `is_latest`, fetching the URL succeeds and returns the
statuses ordered latest-first (each entry comes no later in the
`(is_latest, date)` order than the next), the head of the list is the
marked row, and `URL.is_online` equals that most-recent row's online flag
rather than an arbitrary one. -/
theorem c8_connection_status_ordering (db : Db) (uid : Nat) (u : UrlRow)
    (m : ConnStatusRow)
    (hu : (db.url.filter (fun r => r.id == uid)).head? = some u)
    (hone : (db.connection_status.filter (fun r => r.url_id == uid)).filter
        (fun r => r.is_latest == some true) = [m]) :
    ∃ obj : URLObj, fetch_url_by_id db uid = Except.ok (some obj) ∧
      obj.status.Pairwise csLatestFirst ∧
      obj.status.head? = some (connStatusOfRow m) ∧
      urlIsOnline obj = (connStatusOfRow m).is_online := by
  set S := db.connection_status.filter (fun r => r.url_id == uid) with hS
  have htot : ∀ a b : ConnStatusRow, connLe a b = true ∨ connLe b a = true := by
    intro a b
    simp only [connLe, Bool.or_eq_true, Bool.and_eq_true, decide_eq_true_eq,
      beq_iff_eq]
    omega
  have htrans : ∀ a b c : ConnStatusRow,
      connLe a b = true → connLe b c = true → connLe a c = true := by
    intro a b c
    simp only [connLe, Bool.or_eq_true, Bool.and_eq_true, decide_eq_true_eq,
      beq_iff_eq]
    omega
  have hpw : (sortBy connLe S).Pairwise (fun a b => connLe a b = true) :=
    sortBy_pairwise connLe htot htrans S
  have hfilt : (sortBy connLe S).filter (fun r => r.is_latest == some true)
      = [m] := by
    have h1 : List.Perm
        ((sortBy connLe S).filter (fun r => r.is_latest == some true))
        (S.filter (fun r => r.is_latest == some true)) :=
      (sortBy_perm connLe S).filter _
    rw [hone] at h1
    exact List.perm_singleton.mp h1
  have hm_latest : m.is_latest = some true := by
    have hm : m ∈ (sortBy connLe S).filter
        (fun r => r.is_latest == some true) := by
      rw [hfilt]; exact List.mem_singleton.mpr rfl
    have h2 := (List.mem_filter.mp hm).2
    simpa using h2
  have hdom : ∀ x : ConnStatusRow,
      (x.is_latest == some true) = false → connLe m x = false := by
    intro x hx
    have hxk : olKey x.is_latest ≤ 1 := by
      cases hxl : x.is_latest with
      | none => simp [olKey]
      | some b =>
          cases b with
          | false => simp [olKey]
          | true => rw [hxl] at hx; simp at hx
    have hmk : olKey m.is_latest = 2 := by rw [hm_latest]; rfl
    by_contra hc
    have hc2 : connLe m x = true := by
      revert hc; cases connLe m x <;> simp
    simp only [connLe, Bool.or_eq_true, Bool.and_eq_true, decide_eq_true_eq,
      beq_iff_eq] at hc2
    omega
  have hlast : (sortBy connLe S).getLast? = some m :=
    pairwise_filter_singleton_getLast connLe
      (fun r => r.is_latest == some true) m hdom _ hpw hfilt
  obtain ⟨c, cs, hL⟩ : ∃ c cs, sortBy connLe S = c :: cs := by
    cases hL : sortBy connLe S with
    | nil => rw [hL] at hfilt; simp at hfilt
    | cons c cs => exact ⟨c, cs, rfl⟩
  obtain ⟨us, hU⟩ : ∃ us, db.url.filter (fun r => r.id == uid) = u :: us := by
    cases hU : db.url.filter (fun r => r.id == uid) with
    | nil => rw [hU] at hu; simp at hu
    | cons u0 us =>
        rw [hU] at hu
        have hu0 : u0 = u := by simpa using hu
        subst hu0
        exact ⟨us, rfl⟩
  rw [hL] at hpw hlast
  have hhead : (((c :: cs).map connStatusOfRow).reverse).head?
      = some (connStatusOfRow m) := by
    rw [← List.map_reverse, List.head?_map, List.head?_reverse, hlast]
    rfl
  have hpw2 : (((c :: cs).map connStatusOfRow).reverse).Pairwise
      csLatestFirst := by
    rw [List.pairwise_reverse, List.pairwise_map]
    refine hpw.imp ?_
    intro a b hab
    simp only [connLe, Bool.or_eq_true, Bool.and_eq_true, decide_eq_true_eq,
      beq_iff_eq] at hab
    simp only [csLatestFirst, connStatusOfRow]
    exact hab
  refine ⟨⟨some u.id, u.url, u.url_country, u.url_coordinates, u.wayback_url,
      ((c :: cs).map connStatusOfRow).reverse⟩, ?_, hpw2, hhead, ?_⟩
  · unfold fetch_url_by_id
    rw [hU, ← hS, hL]
  · cases hst : (((c :: cs).map connStatusOfRow).reverse) with
    | nil => rw [hst] at hhead; simp at hhead
    | cons s0 t =>
        have hs0 : s0 = connStatusOfRow m := by
          rw [hst] at hhead; simpa using hhead
        subst hs0
        simp [urlIsOnline, latestConnectionStatus, connStatusOfRow, hm_latest]

/-- C8 witness: a URL with three statuses, one marked latest. -/
theorem c8_connection_status_ordering_witness :
    ∃ obj : URLObj,
      fetch_url_by_id
        ⟨[⟨1, some "http://x", none, none, none⟩], 2,
         [⟨1, 5, some "200 OK", some true, some false⟩,
          ⟨1, 9, some "200 OK", some true, some true⟩,
          ⟨1, 7, some "404: not found", some false, some false⟩],
         [], 1, [], 1, [], 1, [], 1, [], 1, [], [], [], [], [], [], [], 1⟩ 1
        = Except.ok (some obj) ∧
      obj.status.Pairwise csLatestFirst ∧
      obj.status.head? =
        some (connStatusOfRow ⟨1, 9, some "200 OK", some true, some true⟩) ∧
      urlIsOnline obj =
        (connStatusOfRow ⟨1, 9, some "200 OK", some true, some true⟩).is_online :=
  c8_connection_status_ordering _ 1 ⟨1, some "http://x", none, none, none⟩
    ⟨1, 9, some "200 OK", some true, some true⟩ (by decide) (by decide)

/-! ## Claim theorem for latest exclusivity (C2) -/

/-- C2: a successful `Resource.write` of a fresh Resource (no id) carrying a
`short_name` and `is_latest = true` leaves exactly one resource row with that
`short_name` marked `is_latest`, namely the row the write itself upserted
(the returned id): the dedicated flip statement first unmarks every row
sharing the `short_name`, and the subsequent upsert marks only this write's
row.  Applied to each step of N sequential writes sharing one `short_name`,
the invariant holds after every step, so after the N-th write the single
marked row is the most recently written one. -/
theorem c2_latest_exclusivity (maxLen : String → String → Option Nat)
    (r : ResourceObj) (sn : String) (db : Db) (rid : Nat) (robj : ResourceObj)
    (db' : Db) (hsn : r.short_name = some sn) (hlat : r.is_latest = some true)
    (hid : r.id = none)
    (hw : resourceWrite maxLen r db = Except.ok (rid, robj, db')) :
    ((db'.resource.filter (fun row =>
        row.short_name == some sn && row.is_latest == some true)).map
      (fun row => row.id)) = [rid] ∧ robj.id = some rid := by
  cases hurl : r.url with
  | none =>
      unfold resourceWrite at hw
      rw [hurl] at hw
      exact absurd hw (by simp)
  | some u0 =>
      unfold resourceWrite at hw
      rw [hurl] at hw
      dsimp only at hw
      rw [hid, hsn, hlat] at hw
      simp only [Option.getD_some, boolTruthy, updOpt, Bool.false_or,
        eq_self_iff_true, if_true] at hw
      revert hw
      generalize (if idTruthy u0.id = true then (u0.id.getD 0, u0, db)
        else urlWrite u0 db) = ust
      generalize (if idTruthy r.version.id = true
        then (r.version.id.getD 0, r.version, ust.2.2)
        else versionWrite r.version ust.2.2) = vst
      intro hw
      cases hfind : (vst.2.2.resource.map (fun q =>
          if q.short_name == some sn then { q with is_latest := some false }
          else q)).find? (fun q => q.short_name == some sn &&
            q.url_id == ust.1 && q.version_id == vst.1) with
      | some row =>
          rw [hfind] at hw
          dsimp only at hw
          have hc : (row.short_name == some sn) = true := by
            have h := List.find?_some hfind
            simp only [Bool.and_eq_true] at h
            tauto
          cases hps : r.publications with
          | none =>
              rw [hps] at hw
              dsimp only at hw
              simp only [Except.ok.injEq, Prod.mk.injEq] at hw
              obtain ⟨hrid, hrobj, hdb'⟩ := hw
              refine ⟨?_, ?_⟩
              · rw [← hdb']
                split
                · dsimp only
                  refine Eq.trans (marked_of_replaceFirst sn _ _
                    (flip_unmarked sn _) row hfind _ ?_ rfl) ?_
                  · dsimp only
                    exact hc
                  · dsimp only
                    rw [hrid]
                · rw [resourceGrantsWrite_resource]
                  dsimp only
                  refine Eq.trans (marked_of_replaceFirst sn _ _
                    (flip_unmarked sn _) row hfind _ ?_ rfl) ?_
                  · dsimp only
                    exact hc
                  · dsimp only
                    rw [hrid]
              · rw [← hrobj]
                dsimp only
                rw [hrid]
          | some ps =>
              rw [hps] at hw
              dsimp only at hw
              by_cases hemp : ps.isEmpty = true
              · rw [if_pos hemp] at hw
                dsimp only at hw
                simp only [Except.ok.injEq, Prod.mk.injEq] at hw
                obtain ⟨hrid, hrobj, hdb'⟩ := hw
                refine ⟨?_, ?_⟩
                · rw [← hdb']
                  split
                  · dsimp only
                    refine Eq.trans (marked_of_replaceFirst sn _ _
                      (flip_unmarked sn _) row hfind _ ?_ rfl) ?_
                    · dsimp only
                      exact hc
                    · dsimp only
                      rw [hrid]
                  · rw [resourceGrantsWrite_resource]
                    dsimp only
                    refine Eq.trans (marked_of_replaceFirst sn _ _
                      (flip_unmarked sn _) row hfind _ ?_ rfl) ?_
                    · dsimp only
                      exact hc
                    · dsimp only
                      rw [hrid]
                · rw [← hrobj]
                  dsimp only
                  rw [hrid]
              · rw [if_neg hemp] at hw
                split at hw
                · exact absurd hw (by simp)
                · rename_i ps2x db5x heq2
                  split at heq2
                  · exact absurd heq2 (by simp)
                  · rename_i ps2y db5y heq3
                    simp only [Except.ok.injEq, Prod.mk.injEq] at heq2
                    simp only [Except.ok.injEq, Prod.mk.injEq] at hw
                    obtain ⟨hrid, hrobj, hdb'⟩ := hw
                    refine ⟨?_, ?_⟩
                    · rw [← hdb']
                      split
                      · dsimp only
                        rw [← heq2.2,
                          resourcePublicationsWrite_resource _ _ _ _ _ _ heq3]
                        dsimp only
                        refine Eq.trans (marked_of_replaceFirst sn _ _
                          (flip_unmarked sn _) row hfind _ ?_ rfl) ?_
                        · dsimp only
                          exact hc
                        · dsimp only
                          rw [hrid]
                      · rw [resourceGrantsWrite_resource, ← heq2.2,
                          resourcePublicationsWrite_resource _ _ _ _ _ _ heq3]
                        dsimp only
                        refine Eq.trans (marked_of_replaceFirst sn _ _
                          (flip_unmarked sn _) row hfind _ ?_ rfl) ?_
                        · dsimp only
                          exact hc
                        · dsimp only
                          rw [hrid]
                    · rw [← hrobj]
                      dsimp only
                      rw [hrid]
      | none =>
          rw [hfind] at hw
          dsimp only at hw
          cases hps : r.publications with
          | none =>
              rw [hps] at hw
              dsimp only at hw
              simp only [Except.ok.injEq, Prod.mk.injEq] at hw
              obtain ⟨hrid, hrobj, hdb'⟩ := hw
              refine ⟨?_, ?_⟩
              · rw [← hdb']
                split
                · dsimp only
                  refine Eq.trans (marked_of_append sn _
                    (flip_unmarked sn _) _ ?_ rfl) ?_
                  · dsimp only
                    simp
                  · dsimp only
                    rw [hrid]
                · rw [resourceGrantsWrite_resource]
                  dsimp only
                  refine Eq.trans (marked_of_append sn _
                    (flip_unmarked sn _) _ ?_ rfl) ?_
                  · dsimp only
                    simp
                  · dsimp only
                    rw [hrid]
              · rw [← hrobj]
                dsimp only
                rw [hrid]
          | some ps =>
              rw [hps] at hw
              dsimp only at hw
              by_cases hemp : ps.isEmpty = true
              · rw [if_pos hemp] at hw
                dsimp only at hw
                simp only [Except.ok.injEq, Prod.mk.injEq] at hw
                obtain ⟨hrid, hrobj, hdb'⟩ := hw
                refine ⟨?_, ?_⟩
                · rw [← hdb']
                  split
                  · dsimp only
                    refine Eq.trans (marked_of_append sn _
                      (flip_unmarked sn _) _ ?_ rfl) ?_
                    · dsimp only
                      simp
                    · dsimp only
                      rw [hrid]
                  · rw [resourceGrantsWrite_resource]
                    dsimp only
                    refine Eq.trans (marked_of_append sn _
                      (flip_unmarked sn _) _ ?_ rfl) ?_
                    · dsimp only
                      simp
                    · dsimp only
                      rw [hrid]
                · rw [← hrobj]
                  dsimp only
                  rw [hrid]
              · rw [if_neg hemp] at hw
                split at hw
                · exact absurd hw (by simp)
                · rename_i ps2x db5x heq2
                  split at heq2
                  · exact absurd heq2 (by simp)
                  · rename_i ps2y db5y heq3
                    simp only [Except.ok.injEq, Prod.mk.injEq] at heq2
                    simp only [Except.ok.injEq, Prod.mk.injEq] at hw
                    obtain ⟨hrid, hrobj, hdb'⟩ := hw
                    refine ⟨?_, ?_⟩
                    · rw [← hdb']
                      split
                      · dsimp only
                        rw [← heq2.2,
                          resourcePublicationsWrite_resource _ _ _ _ _ _ heq3]
                        dsimp only
                        refine Eq.trans (marked_of_append sn _
                          (flip_unmarked sn _) _ ?_ rfl) ?_
                        · dsimp only
                          simp
                        · dsimp only
                          rw [hrid]
                      · rw [resourceGrantsWrite_resource, ← heq2.2,
                          resourcePublicationsWrite_resource _ _ _ _ _ _ heq3]
                        dsimp only
                        refine Eq.trans (marked_of_append sn _
                          (flip_unmarked sn _) _ ?_ rfl) ?_
                        · dsimp only
                          simp
                        · dsimp only
                          rw [hrid]
                    · rw [← hrobj]
                      dsimp only
                      rw [hrid]

/-- C2 witness: writing a latest-marked Resource over a store that already
holds a marked row with the same `short_name`. -/
theorem c2_latest_exclusivity_witness :
    ∃ rid robj db2,
      resourceWrite (fun _ _ => none)
          ⟨none, some "res1", none, none,
           some ⟨none, some "http://x", none, none, none, []⟩,
           ⟨none, none, none, none, none⟩, none, none, [], none, some true⟩
          ⟨[⟨1, some "http://x", none, none, none⟩], 2, [], [], 1,
           [⟨1, some "res1", none, none, 1, 1, none, none, some true⟩], 2,
           [], 1, [], 1, [], 1, [], [], [], [], [], [], [], 1⟩
        = Except.ok (rid, robj, db2) ∧
      (((db2.resource.filter (fun row => row.short_name == some "res1" &&
          row.is_latest == some true)).map (fun row => row.id)) = [rid] ∧
        robj.id = some rid) :=
  ⟨_, _, _, rfl,
    c2_latest_exclusivity (fun _ _ => none)
      ⟨none, some "res1", none, none,
       some ⟨none, some "http://x", none, none, none, []⟩,
       ⟨none, none, none, none, none⟩, none, none, [], none, some true⟩
      "res1"
      ⟨[⟨1, some "http://x", none, none, none⟩], 2, [], [], 1,
       [⟨1, some "res1", none, none, 1, 1, none, none, some true⟩], 2,
       [], 1, [], 1, [], 1, [], [], [], [], [], [], [], 1⟩
      _ _ _ rfl rfl rfl rfl⟩

/-! ## Claim theorem for mention aggregation (C7) -/

theorem insertMentionRow_spec (processed : List MentionRow)
    (acc : List ((Nat × Nat × Nat) × MentionGroup)) (m : MentionRow)
    (h : GroupSpec processed acc) :
    GroupSpec (processed ++ [m]) (insertMentionRow acc m) := by
  obtain ⟨hnd, hspec, hmiss⟩ := h
  unfold insertMentionRow
  dsimp only
  cases hf : acc.find? (fun g =>
      g.1 == (m.publication_id, m.resource_id, m.version_id)) with
  | some e =>
      have hmem := List.mem_of_find?_eq_some hf
      have hekey : e.1 = (m.publication_id, m.resource_id, m.version_id) := by
        have hpred := List.find?_some hf
        simpa using hpred
      refine ⟨?_, ?_, ?_⟩
      · rw [List.map_map]
        have hc : ∀ x ∈ acc, (Prod.fst ∘ (fun g =>
            if g.1 == (m.publication_id, m.resource_id, m.version_id) then
              (g.1, { g.2 with matched_aliases := g.2.matched_aliases ++
                [⟨m.matched_alias, m.match_count, m.mean_confidence⟩] })
            else g)) x = Prod.fst x := by
          intro x _
          dsimp only [Function.comp]
          split <;> rfl
        rw [List.map_congr_left hc]
        exact hnd
      · intro k g hm
        rcases List.mem_map.mp hm with ⟨e', he'mem, he'eq⟩
        by_cases hk : (e'.1 == (m.publication_id, m.resource_id,
            m.version_id)) = true
        · rw [if_pos hk] at he'eq
          have hk2 : e'.1 = (m.publication_id, m.resource_id, m.version_id) := by
            simpa using hk
          injection he'eq with h1 h2
          subst h1
          subst h2
          obtain ⟨hf1, hf2, hf3, hf4⟩ := hspec e'.1 e'.2 he'mem
          refine ⟨hf1, hf2, hf3, ?_⟩
          dsimp only
          rw [List.filter_append, List.map_append, ← hf4]
          have hfm : [m].filter (fun q =>
              (q.publication_id, q.resource_id, q.version_id) == e'.1) = [m] := by
            simp [hk2]
          rw [hfm]
          simp [rowAlias]
        · rw [if_neg hk] at he'eq
          subst he'eq
          obtain ⟨hf1, hf2, hf3, hf4⟩ := hspec k g he'mem
          refine ⟨hf1, hf2, hf3, ?_⟩
          have hkm : ((m.publication_id, m.resource_id, m.version_id) == k)
              = false := by
            have hk' : (k == (m.publication_id, m.resource_id, m.version_id))
                = false := by simpa using hk
            exact beq_eq_false_iff_ne.mpr (Ne.symm (beq_eq_false_iff_ne.mp hk'))
          rw [List.filter_append]
          have h0 : [m].filter (fun q =>
              (q.publication_id, q.resource_id, q.version_id) == k) = [] := by
            simp [hkm]
          rw [h0, List.append_nil]
          exact hf4
      · intro k hknot
        have hold : ∀ g, (k, g) ∉ acc := by
          intro g hg
          by_cases hk : (((k, g) : (Nat × Nat × Nat) × MentionGroup).1 ==
              (m.publication_id, m.resource_id, m.version_id)) = true
          · exact hknot _ (List.mem_map.mpr ⟨(k, g), hg, by rw [if_pos hk]⟩)
          · exact hknot g (List.mem_map.mpr ⟨(k, g), hg, by rw [if_neg hk]⟩)
        have hkne : k ≠ (m.publication_id, m.resource_id, m.version_id) := by
          intro hkk
          subst hkk
          refine hold e.2 ?_
          rw [← hekey]
          exact hmem
        have hkm : ((m.publication_id, m.resource_id, m.version_id) == k)
            = false := beq_eq_false_iff_ne.mpr (Ne.symm hkne)
        rw [List.filter_append, hmiss k hold]
        simp [hkm]
  | none =>
      have hall := List.find?_eq_none.mp hf
      refine ⟨?_, ?_, ?_⟩
      · rw [List.map_append]
        rw [List.nodup_append]
        refine ⟨hnd, List.nodup_singleton _, ?_⟩
        intro a ha hb
        have ha2 : a = (m.publication_id, m.resource_id, m.version_id) := by
          simpa using hb
        subst ha2
        rcases List.mem_map.mp ha with ⟨e, hemem, heq⟩
        have := hall e hemem
        rw [heq] at this
        simp at this
      · intro k g hm
        rcases List.mem_append.mp hm with hm1 | hm2
        · obtain ⟨hf1, hf2, hf3, hf4⟩ := hspec k g hm1
          refine ⟨hf1, hf2, hf3, ?_⟩
          have hk : (k == (m.publication_id, m.resource_id, m.version_id))
              = false := by
            have := hall (k, g) hm1
            simpa using this
          have hkm : ((m.publication_id, m.resource_id, m.version_id) == k)
              = false :=
            beq_eq_false_iff_ne.mpr (Ne.symm (beq_eq_false_iff_ne.mp hk))
          rw [List.filter_append]
          have h0 : [m].filter (fun q =>
              (q.publication_id, q.resource_id, q.version_id) == k) = [] := by
            simp [hkm]
          rw [h0, List.append_nil]
          exact hf4
        · have hm3 : (k, g) = ((m.publication_id, m.resource_id, m.version_id),
              (⟨m.publication_id, m.resource_id, m.version_id,
                [⟨m.matched_alias, m.match_count, m.mean_confidence⟩]⟩ :
                MentionGroup)) := by
            simpa using hm2
          injection hm3 with h1 h2
          subst h1
          subst h2
          refine ⟨rfl, rfl, rfl, ?_⟩
          have hbase : processed.filter (fun q =>
              (q.publication_id, q.resource_id, q.version_id) ==
                (m.publication_id, m.resource_id, m.version_id)) = [] := by
            refine hmiss _ ?_
            intro g' hg'
            exact (hall ((m.publication_id, m.resource_id, m.version_id), g')
              hg') (by simp)
          rw [List.filter_append, hbase, List.nil_append]
          simp [rowAlias]
      · intro k hknot
        have hold : ∀ g, (k, g) ∉ acc := fun g hg =>
          hknot g (List.mem_append_left _ hg)
        have hknew : k ≠ (m.publication_id, m.resource_id, m.version_id) := by
          intro hkk
          subst hkk
          exact hknot ⟨m.publication_id, m.resource_id, m.version_id,
            [⟨m.matched_alias, m.match_count, m.mean_confidence⟩]⟩
            (List.mem_append_right _ (by simp))
        have hkm : ((m.publication_id, m.resource_id, m.version_id) == k)
            = false := beq_eq_false_iff_ne.mpr (Ne.symm hknew)
        rw [List.filter_append, hmiss k hold]
        simp [hkm]

theorem foldl_insertMentionRow_spec (rows : List MentionRow) :
    ∀ acc processed, GroupSpec processed acc →
      GroupSpec (processed ++ rows) (rows.foldl insertMentionRow acc) := by
  induction rows with
  | nil =>
      intro acc processed h
      simpa using h
  | cons m rest ih =>
      intro acc processed h
      rw [List.foldl_cons]
      have h3 := ih (insertMentionRow acc m) (processed ++ [m])
        (insertMentionRow_spec processed acc m h)
      simpa using h3

theorem groupMentions_spec (rows : List MentionRow) :
    GroupSpec rows (groupMentions rows) := by
  have h := foldl_insertMentionRow_spec rows [] []
    ⟨by simp, by intro k g hkg; exact absurd hkg (List.not_mem_nil _),
     by intro k _; rfl⟩
  simpa using h

/-- C7: `fetch_resource_mention` groups rows by the
`(publication_id, resource_id, version_id)` triple — each group collects
exactly the alias records of the rows with that key, in row order — and each
built `ResourceMention` carries its group's aliases (reversed, so the
highest match count comes first) with `match_count` the sum of the alias
match counts and `mean_confidence` their unweighted arithmetic mean; in
particular the two spec rows for resource 123 yield exactly one mention with
`match_count = 3` and `mean_confidence = 0.95`. -/
theorem c7_mention_aggregation :
    (∀ (rows : List MentionRow) (k : Nat × Nat × Nat) (g : MentionGroup),
        (k, g) ∈ groupMentions rows →
          g.publication_id = k.1 ∧ g.resource_id = k.2.1 ∧
          g.version_id = k.2.2 ∧
          g.matched_aliases = (rows.filter (fun q =>
            (q.publication_id, q.resource_id, q.version_id) == k)).map
            rowAlias) ∧
    (∀ (db : Db) (expanded : Bool) (g : MentionGroup) (m : ResourceMentionObj),
        buildMention db expanded g = Except.ok m →
          m.matched_aliases = g.matched_aliases.reverse ∧
          m.match_count = aliasCountSum m.matched_aliases ∧
          m.mean_confidence = aliasConfMean m.matched_aliases) ∧
    fetch_resource_mention
        ⟨[], 1, [], [], 1, [], 1, [], 1, [], 1, [], 1, [], [], [], [], [],
         [⟨890, 123, 2, "R123", 2, (9 : ℚ)/10⟩,
          ⟨890, 123, 2, "test_resource", 1, 1⟩], [], 1⟩
        true (fun q => q.resource_id == 123)
      = Except.ok (some [⟨emptyPublication, emptyResource, emptyVersion,
          [⟨"R123", 2, (9 : ℚ)/10⟩, ⟨"test_resource", 1, 1⟩],
          3, (19 : ℚ)/20⟩]) := by
  refine ⟨?_, ?_, ?_⟩
  · intro rows k g hm
    exact (groupMentions_spec rows).2.1 k g hm
  · intro db expanded g m h
    unfold buildMention at h
    split at h
    · exact absurd h (by simp)
    · rename_i pl heq1
      split at h
      · exact absurd h (by simp)
      · rename_i ro heq2
        dsimp only at h
        simp only [Except.ok.injEq] at h
        subst h
        exact ⟨rfl, rfl, rfl⟩
  · have h1 : aliasCountSum
        [⟨"R123", 2, (9 : ℚ)/10⟩, ⟨"test_resource", 1, 1⟩] = 3 := by
      norm_num [aliasCountSum]
    have h2 : aliasConfMean
        [⟨"R123", 2, (9 : ℚ)/10⟩, ⟨"test_resource", 1, 1⟩] = (19 : ℚ)/20 := by
      norm_num [aliasConfMean]
    rw [← h1, ← h2]
    rfl

/-- C7 witness: the grouping conjunct at the two spec rows (the group holds
both alias records and carries the key's ids) and the aggregation conjunct
at the resulting group (sum 3, mean 19/20). -/
theorem c7_mention_aggregation_witness :
    ((⟨890, 123, 2, [⟨"R123", 2, (9 : ℚ)/10⟩, ⟨"test_resource", 1, 1⟩]⟩ :
        MentionGroup).publication_id = 890 ∧
      (⟨890, 123, 2, [⟨"R123", 2, (9 : ℚ)/10⟩, ⟨"test_resource", 1, 1⟩]⟩ :
        MentionGroup).resource_id = 123 ∧
      (⟨890, 123, 2, [⟨"R123", 2, (9 : ℚ)/10⟩, ⟨"test_resource", 1, 1⟩]⟩ :
        MentionGroup).version_id = 2 ∧
      (⟨890, 123, 2, [⟨"R123", 2, (9 : ℚ)/10⟩, ⟨"test_resource", 1, 1⟩]⟩ :
          MentionGroup).matched_aliases =
        ([⟨890, 123, 2, "R123", 2, (9 : ℚ)/10⟩,
          ⟨890, 123, 2, "test_resource", 1, 1⟩].filter (fun q =>
            (q.publication_id, q.resource_id, q.version_id) ==
              (890, 123, 2))).map rowAlias) ∧
    ((⟨emptyPublication, emptyResource, emptyVersion,
        [⟨"R123", 2, (9 : ℚ)/10⟩, ⟨"test_resource", 1, 1⟩],
        aliasCountSum [⟨"R123", 2, (9 : ℚ)/10⟩, ⟨"test_resource", 1, 1⟩],
        aliasConfMean [⟨"R123", 2, (9 : ℚ)/10⟩, ⟨"test_resource", 1, 1⟩]⟩ :
        ResourceMentionObj).matched_aliases =
      ([⟨"test_resource", 1, 1⟩, ⟨"R123", 2, (9 : ℚ)/10⟩] :
        List MatchedAlias).reverse ∧
     (⟨emptyPublication, emptyResource, emptyVersion,
        [⟨"R123", 2, (9 : ℚ)/10⟩, ⟨"test_resource", 1, 1⟩],
        aliasCountSum [⟨"R123", 2, (9 : ℚ)/10⟩, ⟨"test_resource", 1, 1⟩],
        aliasConfMean [⟨"R123", 2, (9 : ℚ)/10⟩, ⟨"test_resource", 1, 1⟩]⟩ :
        ResourceMentionObj).match_count =
      aliasCountSum [⟨"R123", 2, (9 : ℚ)/10⟩, ⟨"test_resource", 1, 1⟩] ∧
     (⟨emptyPublication, emptyResource, emptyVersion,
        [⟨"R123", 2, (9 : ℚ)/10⟩, ⟨"test_resource", 1, 1⟩],
        aliasCountSum [⟨"R123", 2, (9 : ℚ)/10⟩, ⟨"test_resource", 1, 1⟩],
        aliasConfMean [⟨"R123", 2, (9 : ℚ)/10⟩, ⟨"test_resource", 1, 1⟩]⟩ :
        ResourceMentionObj).mean_confidence =
      aliasConfMean [⟨"R123", 2, (9 : ℚ)/10⟩, ⟨"test_resource", 1, 1⟩]) :=
  ⟨c7_mention_aggregation.1
      [⟨890, 123, 2, "R123", 2, (9 : ℚ)/10⟩,
       ⟨890, 123, 2, "test_resource", 1, 1⟩]
      (890, 123, 2)
      ⟨890, 123, 2, [⟨"R123", 2, (9 : ℚ)/10⟩, ⟨"test_resource", 1, 1⟩]⟩
      (List.Mem.head _),
   c7_mention_aggregation.2.1
      ⟨[], 1, [], [], 1, [], 1, [], 1, [], 1, [], 1, [], [], [], [], [],
       [], [], 1⟩
      true
      ⟨890, 123, 2, [⟨"test_resource", 1, 1⟩, ⟨"R123", 2, (9 : ℚ)/10⟩]⟩
      ⟨emptyPublication, emptyResource, emptyVersion,
       [⟨"R123", 2, (9 : ℚ)/10⟩, ⟨"test_resource", 1, 1⟩],
       aliasCountSum [⟨"R123", 2, (9 : ℚ)/10⟩, ⟨"test_resource", 1, 1⟩],
       aliasConfMean [⟨"R123", 2, (9 : ℚ)/10⟩, ⟨"test_resource", 1, 1⟩]⟩
      rfl⟩

/-! ## Claim theorem for accession grouping (C6) -/

theorem find?_append_of_some {α : Type} {p : α → Bool} {l1 : List α} {a : α}
    (l2 : List α) (h : l1.find? p = some a) : (l1 ++ l2).find? p = some a := by
  induction l1 with
  | nil => cases h
  | cons b rest ih =>
      rcases hb : p b with _ | _
      · have h2 : rest.find? p = some a := by simpa [List.find?_cons, hb] using h
        simpa [List.find?_cons, hb] using ih h2
      · have h2 : b = a := by simpa [List.find?_cons, hb] using h
        subst h2
        simp [List.find?_cons, hb]

theorem find?_append_of_none {α : Type} {p : α → Bool} {l1 : List α}
    (l2 : List α) (h : l1.find? p = none) : (l1 ++ l2).find? p = l2.find? p := by
  induction l1 with
  | nil => rfl
  | cons b rest ih =>
      rcases hb : p b with _ | _
      · have h2 : rest.find? p = none := by simpa [List.find?_cons, hb] using h
        simpa [List.find?_cons, hb] using ih h2
      · rw [List.find?_cons_of_pos _ hb] at h
        cases h

theorem mem_addNat (n m : Nat) (l : List Nat) :
    n ∈ addNat m l ↔ n ∈ l ∨ n = m := by
  unfold addNat
  split
  · rename_i hc
    constructor
    · exact fun h => Or.inl h
    · rintro (h | rfl)
      · exact h
      · simpa using hc
  · simp [List.mem_append]

theorem insertAccRow_spec (processed : List (AccessionRow × Nat))
    (acc : List (String × AccGroup)) (x : AccessionRow × Nat)
    (h : AccSpec processed acc) :
    AccSpec (processed ++ [x]) (insertAccRow acc x) := by
  obtain ⟨hnd, hspec, hmiss⟩ := h
  unfold insertAccRow
  cases hf : acc.find? (fun g => g.1 == x.1.accession) with
  | some e =>
      have hmem := List.mem_of_find?_eq_some hf
      have hekey : e.1 = x.1.accession := by
        have hpred := List.find?_some hf
        simpa using hpred
      refine ⟨?_, ?_, ?_⟩
      · rw [List.map_map]
        have hc : ∀ y ∈ acc, (Prod.fst ∘ (fun g =>
            if g.1 == x.1.accession then
              (g.1, { g.2 with publications := addNat x.2 g.2.publications })
            else g)) y = Prod.fst y := by
          intro y _
          dsimp only [Function.comp]
          split <;> rfl
        rw [List.map_congr_left hc]
        exact hnd
      · intro a g hm
        rcases List.mem_map.mp hm with ⟨e', he'mem, he'eq⟩
        by_cases hk : (e'.1 == x.1.accession) = true
        · rw [if_pos hk] at he'eq
          have hk2 : e'.1 = x.1.accession := by simpa using hk
          injection he'eq with h1 h2
          subst h1
          subst h2
          obtain ⟨⟨x0, hx0, hg1, hg2, hg3, hg4⟩, hpnd, hpm⟩ :=
            hspec e'.1 e'.2 he'mem
          refine ⟨⟨x0, find?_append_of_some [x] hx0, hg1, hg2, hg3, hg4⟩,
            ?_, ?_⟩
          · dsimp only
            rw [show addNat x.2 e'.2.publications =
                if e'.2.publications.contains x.2 then e'.2.publications
                else e'.2.publications ++ [x.2] from rfl]
            split
            · exact hpnd
            · rename_i hcont
              rw [List.nodup_append]
              refine ⟨hpnd, List.nodup_singleton _, ?_⟩
              intro b hb hb2
              have hb3 : b = x.2 := by simpa using hb2
              subst hb3
              exact hcont (by simpa using hb)
          · intro n
            dsimp only
            rw [List.filter_append, List.map_append]
            have hfx : [x].filter (fun y => y.1.accession == e'.1) = [x] := by
              simp [hk2]
            rw [hfx, mem_addNat, hpm n]
            simp [List.mem_append]
        · rw [if_neg hk] at he'eq
          subst he'eq
          obtain ⟨⟨x0, hx0, hg1, hg2, hg3, hg4⟩, hpnd, hpm⟩ := hspec a g he'mem
          have hka : (x.1.accession == a) = false := by
            have hk' : (a == x.1.accession) = false := by simpa using hk
            exact beq_eq_false_iff_ne.mpr (Ne.symm (beq_eq_false_iff_ne.mp hk'))
          refine ⟨⟨x0, find?_append_of_some [x] hx0, hg1, hg2, hg3, hg4⟩,
            hpnd, ?_⟩
          intro n
          rw [List.filter_append]
          have h0 : [x].filter (fun y => y.1.accession == a) = [] := by
            simp [hka]
          rw [h0, List.append_nil]
          exact hpm n
      · intro a hknot
        have hold : ∀ g, (a, g) ∉ acc := by
          intro g hg
          by_cases hk : (((a, g) : String × AccGroup).1 == x.1.accession) = true
          · exact hknot _ (List.mem_map.mpr ⟨(a, g), hg, by rw [if_pos hk]⟩)
          · exact hknot g (List.mem_map.mpr ⟨(a, g), hg, by rw [if_neg hk]⟩)
        have hkne : a ≠ x.1.accession := by
          intro hkk
          subst hkk
          refine hold e.2 ?_
          rw [← hekey]
          exact hmem
        have hka : (x.1.accession == a) = false :=
          beq_eq_false_iff_ne.mpr (Ne.symm hkne)
        rw [List.filter_append, hmiss a hold]
        simp [hka]
  | none =>
      have hall := List.find?_eq_none.mp hf
      refine ⟨?_, ?_, ?_⟩
      · rw [List.map_append]
        rw [List.nodup_append]
        refine ⟨hnd, List.nodup_singleton _, ?_⟩
        intro b hb hb2
        have hb3 : b = x.1.accession := by simpa using hb2
        subst hb3
        rcases List.mem_map.mp hb with ⟨e, hemem, heq⟩
        have := hall e hemem
        rw [heq] at this
        simp at this
      · intro a g hm
        rcases List.mem_append.mp hm with hm1 | hm2
        · obtain ⟨⟨x0, hx0, hg1, hg2, hg3, hg4⟩, hpnd, hpm⟩ := hspec a g hm1
          have hk : (a == x.1.accession) = false := by
            have := hall (a, g) hm1
            simpa using this
          have hka : (x.1.accession == a) = false :=
            beq_eq_false_iff_ne.mpr (Ne.symm (beq_eq_false_iff_ne.mp hk))
          refine ⟨⟨x0, find?_append_of_some [x] hx0, hg1, hg2, hg3, hg4⟩,
            hpnd, ?_⟩
          intro n
          rw [List.filter_append]
          have h0 : [x].filter (fun y => y.1.accession == a) = [] := by
            simp [hka]
          rw [h0, List.append_nil]
          exact hpm n
        · have hm3 : (a, g) = (x.1.accession,
              (⟨x.1.version_id, x.1.resource_id, [x.2], x.1.url,
                x.1.prediction_metadata⟩ : AccGroup)) := by
            simpa using hm2
          injection hm3 with h1 h2
          subst h1
          subst h2
          have hbase : processed.filter (fun y =>
              y.1.accession == x.1.accession) = [] := by
            refine hmiss _ ?_
            intro g' hg'
            exact (hall (x.1.accession, g') hg') (by simp)
          have hfnone : processed.find? (fun y =>
              y.1.accession == x.1.accession) = none := by
            rw [List.find?_eq_none]
            intro y hy
            have := List.filter_eq_nil_iff.mp hbase y hy
            simpa using this
          refine ⟨⟨x, ?_, rfl, rfl, rfl, rfl⟩, by simp, ?_⟩
          · rw [find?_append_of_none [x] hfnone]
            simp
          · intro n
            rw [List.filter_append, hbase, List.nil_append]
            simp
      · intro a hknot
        have hold : ∀ g, (a, g) ∉ acc := fun g hg =>
          hknot g (List.mem_append_left _ hg)
        have hknew : a ≠ x.1.accession := by
          intro hkk
          subst hkk
          exact hknot ⟨x.1.version_id, x.1.resource_id, [x.2], x.1.url,
            x.1.prediction_metadata⟩ (List.mem_append_right _ (by simp))
        have hka : (x.1.accession == a) = false :=
          beq_eq_false_iff_ne.mpr (Ne.symm hknew)
        rw [List.filter_append, hmiss a hold]
        simp [hka]

theorem foldl_insertAccRow_spec (rows : List (AccessionRow × Nat)) :
    ∀ acc processed, AccSpec processed acc →
      AccSpec (processed ++ rows) (rows.foldl insertAccRow acc) := by
  induction rows with
  | nil =>
      intro acc processed h
      simpa using h
  | cons m rest ih =>
      intro acc processed h
      rw [List.foldl_cons]
      have h3 := ih (insertAccRow acc m) (processed ++ [m])
        (insertAccRow_spec processed acc m h)
      simpa using h3

theorem groupAccessions_spec (rows : List (AccessionRow × Nat)) :
    AccSpec rows (groupAccessions rows) := by
  have h := foldl_insertAccRow_spec rows [] []
    ⟨by simp, by intro a g hkg; exact absurd hkg (List.not_mem_nil _),
     by intro a _; rfl⟩
  simpa using h

theorem strLtChars_or_eq : ∀ a b : List Char,
    strLtChars a b = true ∨ strLtChars b a = true ∨ a = b := by
  intro a
  induction a with
  | nil =>
      intro b
      cases b with
      | nil => right; right; rfl
      | cons d ds => left; rfl
  | cons c cs ih =>
      intro b
      cases b with
      | nil => right; left; rfl
      | cons d ds =>
          by_cases h1 : c.toNat < d.toNat
          · left
            simp [strLtChars, h1]
          · by_cases h2 : d.toNat < c.toNat
            · right; left
              simp [strLtChars, h2]
            · have h3 : c.toNat = d.toNat :=
                Nat.le_antisymm (Nat.not_lt.mp h2) (Nat.not_lt.mp h1)
              have hcd : c = d := by
                have h4 : c.val.toNat = d.val.toNat := h3
                exact Char.ext (UInt32.toNat.inj h4)
              subst hcd
              rcases ih ds with h | h | h
              · left; simp [strLtChars, h]
              · right; left; simp [strLtChars, h]
              · right; right; rw [h]

theorem strLtChars_trans : ∀ a b c : List Char, strLtChars a b = true →
    strLtChars b c = true → strLtChars a c = true := by
  intro a
  induction a with
  | nil =>
      intro b c hab hbc
      cases b with
      | nil => simp [strLtChars] at hab
      | cons d ds =>
          cases c with
          | nil => simp [strLtChars] at hbc
          | cons e es => rfl
  | cons x xs ih =>
      intro b c hab hbc
      cases b with
      | nil => simp [strLtChars] at hab
      | cons y ys =>
          cases c with
          | nil => simp [strLtChars] at hbc
          | cons z zs =>
              by_cases h1 : x.toNat < y.toNat
              · by_cases h2 : y.toNat < z.toNat
                · have h5 : x.toNat < z.toNat := Nat.lt_trans h1 h2
                  simp [strLtChars, h5]
                · by_cases h3 : z.toNat < y.toNat
                  · simp [strLtChars, h2, h3] at hbc
                  · have hyz : y.toNat = z.toNat :=
                      Nat.le_antisymm (Nat.not_lt.mp h3) (Nat.not_lt.mp h2)
                    have h5 : x.toNat < z.toNat := hyz ▸ h1
                    simp [strLtChars, h5]
              · by_cases h4 : y.toNat < x.toNat
                · simp [strLtChars, h1, h4] at hab
                · have hxy : x.toNat = y.toNat :=
                    Nat.le_antisymm (Nat.not_lt.mp h4) (Nat.not_lt.mp h1)
                  have hab2 : strLtChars xs ys = true := by
                    simpa [strLtChars, h1, h4] using hab
                  by_cases h2 : y.toNat < z.toNat
                  · have h5 : x.toNat < z.toNat := hxy ▸ h2
                    simp [strLtChars, h5]
                  · by_cases h3 : z.toNat < y.toNat
                    · simp [strLtChars, h2, h3] at hbc
                    · have hyz : y.toNat = z.toNat :=
                        Nat.le_antisymm (Nat.not_lt.mp h3) (Nat.not_lt.mp h2)
                      have hbc2 : strLtChars ys zs = true := by
                        simpa [strLtChars, h2, h3] using hbc
                      have hxz : ¬ x.toNat < z.toNat := by omega
                      have hzx : ¬ z.toNat < x.toNat := by omega
                      simp [strLtChars, hxz, hzx]
                      exact ih ys zs hab2 hbc2

theorem strLeB_total (a b : String) : strLeB a b = true ∨ strLeB b a = true := by
  rcases strLtChars_or_eq a.data b.data with h | h | h
  · left; simp [strLeB, h]
  · right; simp [strLeB, h]
  · left; simp [strLeB, h]

theorem strLeB_trans (a b c : String) (h1 : strLeB a b = true)
    (h2 : strLeB b c = true) : strLeB a c = true := by
  simp only [strLeB, Bool.or_eq_true, beq_iff_eq] at h1 h2 ⊢
  rcases h1 with h1 | h1
  · rcases h2 with h2 | h2
    · exact Or.inl (strLtChars_trans _ _ _ h1 h2)
    · left; rw [← h2]; exact h1
  · rcases h2 with h2 | h2
    · left; rw [h1]; exact h2
    · right; rw [h1, h2]

theorem buildAccession_accession (db : Db) (expanded : Bool)
    (gs : List (String × AccGroup)) (a : String) (x : AccessionObj)
    (h : buildAccession db expanded gs a = Except.ok x) : x.accession = a := by
  unfold buildAccession at h
  split at h
  · exact absurd h (by simp)
  · split at h
    · exact absurd h (by simp)
    · dsimp only at h
      split at h
      · exact absurd h (by simp)
      · simp only [Except.ok.injEq] at h
        subst h
        rfl
      · simp only [Except.ok.injEq] at h
        subst h
        rfl

theorem buildAccessions_keys (db : Db) (expanded : Bool)
    (gs : List (String × AccGroup)) :
    ∀ (ks : List String) (xs : List AccessionObj),
      buildAccessions db expanded gs ks = Except.ok xs →
        xs.map (fun x => x.accession) = ks := by
  intro ks
  induction ks with
  | nil =>
      intro xs h
      unfold buildAccessions at h
      simp only [Except.ok.injEq] at h
      subst h
      rfl
  | cons a rest ih =>
      intro xs h
      unfold buildAccessions at h
      split at h
      · exact absurd h (by simp)
      · rename_i x heq1
        split at h
        · exact absurd h (by simp)
        · rename_i xs2 heq2
          simp only [Except.ok.injEq] at h
          subst h
          rw [List.map_cons, buildAccession_accession db expanded gs a x heq1,
            ih xs2 heq2]

/-- C6: `fetch_accession` queries the accession↔accession_publication join
(the typed pair model stands for the prefixed flat dict after its two
prefix strips), groups the rows by the accession natural-key string —
distinct keys, each group carrying its first row's scalar fields and the
set of distinct publication ids of its rows — sorts the group keys by
accession string and returns one Accession per group in that order; in
particular two join rows sharing accession "acc1.123" with publication
ids 432 and 789 yield exactly one Accession whose publications are exactly
those two. -/
theorem c6_accession_grouping :
    (∀ (rows : List (AccessionRow × Nat)) (a : String) (g : AccGroup),
        (a, g) ∈ groupAccessions rows →
          g.publications.Nodup ∧
          (∀ n, n ∈ g.publications ↔
            n ∈ (rows.filter (fun x => x.1.accession == a)).map Prod.snd) ∧
          (∃ x0, rows.find? (fun x => x.1.accession == a) = some x0 ∧
            g.version_id = x0.1.version_id ∧ g.resource_id = x0.1.resource_id ∧
            g.url = x0.1.url ∧
            g.prediction_metadata = x0.1.prediction_metadata)) ∧
    (∀ (db : Db) (expanded : Bool) (flt : AccessionRow × Nat → Bool)
        (as2 : List AccessionObj),
        fetch_accession db expanded flt = Except.ok (some as2) →
          as2.map (fun x => x.accession) =
            sortBy strLeB ((groupAccessions (sortBy accLe
              ((accJoinRows db).filter flt))).map (fun g => g.1)) ∧
          List.Perm (as2.map (fun x => x.accession))
            ((groupAccessions (sortBy accLe
              ((accJoinRows db).filter flt))).map (fun g => g.1)) ∧
          (as2.map (fun x => x.accession)).Pairwise
            (fun x y => strLeB x y = true)) ∧
    fetch_accession
        ⟨[], 1, [], [], 1, [], 1,
         [⟨432, some "T432", none, none, none, none, none, none, none, none⟩,
          ⟨789, some "T789", none, none, none, none, none, none, none, none⟩],
         790, [], 1, [], 1, [], [], [],
         [⟨"acc1.123", 1, 1, none, none⟩],
         [("acc1.123", 432), ("acc1.123", 789)], [], [], 1⟩
        true (fun x => x.1.accession == "acc1.123")
      = Except.ok (some [⟨"acc1.123", emptyResource,
          [some ⟨some 432, some "T432", none, none, none, none, none, none,
            none, none, none⟩,
           some ⟨some 789, some "T789", none, none, none, none, none, none,
            none, none, none⟩], emptyVersion, none, none⟩]) := by
  refine ⟨?_, ?_, ?_⟩
  · intro rows a g hm
    obtain ⟨hfind, hnodup, hmem⟩ := (groupAccessions_spec rows).2.1 a g hm
    exact ⟨hnodup, hmem, hfind⟩
  · intro db expanded flt as2 h
    unfold fetch_accession at h
    dsimp only at h
    split at h
    · exact absurd h (by simp)
    · split at h
      · exact absurd h (by simp)
      · rename_i xs heq
        simp only [Except.ok.injEq, Option.some.injEq] at h
        subst h
        have hkeys := buildAccessions_keys db expanded _ _ _ heq
        refine ⟨hkeys, ?_, ?_⟩
        · rw [hkeys]
          exact sortBy_perm strLeB _
        · rw [hkeys]
          exact sortBy_pairwise strLeB strLeB_total strLeB_trans _
  · rfl

/-- C6 witness: the grouping conjunct at the two spec join rows and the
sorted-output conjunct at a one-row store. -/
theorem c6_accession_grouping_witness :
    ((⟨1, 1, [432, 789], none, none⟩ : AccGroup).publications.Nodup ∧
      (∀ n, n ∈ (⟨1, 1, [432, 789], none, none⟩ : AccGroup).publications ↔
        n ∈ (([(⟨"acc1.123", 1, 1, none, none⟩, 432),
              (⟨"acc1.123", 1, 1, none, none⟩, 789)] :
              List (AccessionRow × Nat)).filter (fun x =>
                x.1.accession == "acc1.123")).map Prod.snd) ∧
      (∃ x0, ([(⟨"acc1.123", 1, 1, none, none⟩, 432),
              (⟨"acc1.123", 1, 1, none, none⟩, 789)] :
              List (AccessionRow × Nat)).find? (fun x =>
                x.1.accession == "acc1.123") = some x0 ∧
        (⟨1, 1, [432, 789], none, none⟩ : AccGroup).version_id
          = x0.1.version_id ∧
        (⟨1, 1, [432, 789], none, none⟩ : AccGroup).resource_id
          = x0.1.resource_id ∧
        (⟨1, 1, [432, 789], none, none⟩ : AccGroup).url = x0.1.url ∧
        (⟨1, 1, [432, 789], none, none⟩ : AccGroup).prediction_metadata
          = x0.1.prediction_metadata)) ∧
    ([(⟨"a", emptyResource, [none], emptyVersion, none, none⟩ :
        AccessionObj)].map (fun x => x.accession) =
      sortBy strLeB ((groupAccessions (sortBy accLe
        ((accJoinRows ⟨[], 1, [], [], 1, [], 1, [], 1, [], 1, [], 1, [], [],
          [], [⟨"a", 1, 1, none, none⟩], [("a", 5)], [], [], 1⟩).filter
          (fun _ => true)))).map (fun g => g.1)) ∧
     List.Perm ([(⟨"a", emptyResource, [none], emptyVersion, none, none⟩ :
        AccessionObj)].map (fun x => x.accession))
      ((groupAccessions (sortBy accLe
        ((accJoinRows ⟨[], 1, [], [], 1, [], 1, [], 1, [], 1, [], 1, [], [],
          [], [⟨"a", 1, 1, none, none⟩], [("a", 5)], [], [], 1⟩).filter
          (fun _ => true)))).map (fun g => g.1)) ∧
     (([(⟨"a", emptyResource, [none], emptyVersion, none, none⟩ :
        AccessionObj)].map (fun x => x.accession))).Pairwise
      (fun x y => strLeB x y = true)) :=
  ⟨c6_accession_grouping.1
      ([(⟨"acc1.123", 1, 1, none, none⟩, 432),
        (⟨"acc1.123", 1, 1, none, none⟩, 789)] : List (AccessionRow × Nat))
      "acc1.123" ⟨1, 1, [432, 789], none, none⟩ (by decide),
   c6_accession_grouping.2.1
      ⟨[], 1, [], [], 1, [], 1, [], 1, [], 1, [], 1, [], [],
       [], [⟨"a", 1, 1, none, none⟩], [("a", 5)], [], [], 1⟩
      true (fun _ => true)
      [⟨"a", emptyResource, [none], emptyVersion, none, none⟩] rfl⟩

/-! ## Claim theorems for the write/fetch round trip (C5) -/

/-- C5 (counterexample): a Resource with one valid Publication and one Grant
whose URL carries no ConnectionStatus writes successfully, but fetching it
with `expanded=True` raises `TypeError`: `fetch_url` sorts the URL's
statuses, `fetch_connection_status` returns `None` for the empty set, and
line 118 of utils_fetch.py evaluates `None[::-1]`.  The round trip therefore
fails for such Resources instead of returning the original title and grant
id. -/
theorem c5_round_trip_counterexample :
    ∃ rid robj db2,
      resourceWrite (fun _ _ => none)
          ⟨none, some "res1", none, none,
           some ⟨none, some "http://x", none, none, none, []⟩,
           ⟨none, none, none, none, none⟩, none,
           some [some ⟨none, some "T", none, none, none, some "Au", none,
             none, some 3, none, none⟩],
           [⟨none, some "G-1", ⟨none, some "NIH", none, none, none⟩⟩],
           none, none⟩
          ⟨[], 1, [], [], 1, [], 1, [], 1, [], 1, [], 1, [], [], [], [], [],
           [], [], 1⟩
        = Except.ok (rid, robj, db2) ∧
      fetch_resource_by_id db2 true rid =
        Except.error PyErr.typeErrorNoneReverse :=
  ⟨_, _, _, rfl, rfl⟩

set_option maxHeartbeats 2000000 in
/-- C5 (amended): for a Resource with one Publication whose title and
authors are nonempty strings and whose citation count is non-null (the
Publication validator rejects the rest) and one Grant, and whose URL carries
at least one ConnectionStatus, writing into a fresh store and fetching the
resulting id with `expanded=True` returns a Resource whose
`publications[0].title` and `grants[0].ext_grant_id` equal the supplied
values. -/
theorem c5_round_trip_amended (tc : Char) (ts : List Char) (auc : Char)
    (aus : List Char) (cc : Int) (gid ganame sn url st : String) (d : Int)
    (onl : Bool) :
    ∃ rid robj db2 robj2,
      resourceWrite (fun _ _ => none)
          ⟨none, some sn, none, none,
           some ⟨none, some url, none, none, none,
             [⟨none, st, d, onl, some false⟩]⟩,
           ⟨none, none, none, none, none⟩, none,
           some [some ⟨none, some ⟨tc :: ts⟩, none, none, none,
             some ⟨auc :: aus⟩, none, none, some cc, none, none⟩],
           [⟨none, some gid, ⟨none, some ganame, none, none, none⟩⟩],
           none, none⟩
          ⟨[], 1, [], [], 1, [], 1, [], 1, [], 1, [], 1, [], [], [], [], [],
           [], [], 1⟩
        = Except.ok (rid, robj, db2) ∧
      fetch_resource_by_id db2 true rid = Except.ok (some robj2) ∧
      (∃ P, robj2.publications = some [some P] ∧ P.title = some ⟨tc :: ts⟩) ∧
      (∃ G, robj2.grants = [G] ∧ G.ext_grant_id = some gid) :=
  ⟨_, _, _, _, rfl, rfl, ⟨_, rfl, rfl⟩, ⟨_, rfl, rfl⟩⟩

/-- C5 witness: the amended round trip at concrete values. -/
theorem c5_round_trip_amended_witness :
    ∃ rid robj db2 robj2,
      resourceWrite (fun _ _ => none)
          ⟨none, some "res1", none, none,
           some ⟨none, some "http://x", none, none, none,
             [⟨none, "200: OK", 5, true, some false⟩]⟩,
           ⟨none, none, none, none, none⟩, none,
           some [some ⟨none, some ⟨'T' :: []⟩, none, none, none,
             some ⟨'A' :: []⟩, none, none, some 3, none, none⟩],
           [⟨none, some "G-1", ⟨none, some "NIH", none, none, none⟩⟩],
           none, none⟩
          ⟨[], 1, [], [], 1, [], 1, [], 1, [], 1, [], 1, [], [], [], [], [],
           [], [], 1⟩
        = Except.ok (rid, robj, db2) ∧
      fetch_resource_by_id db2 true rid = Except.ok (some robj2) ∧
      (∃ P, robj2.publications = some [some P] ∧
        P.title = some ⟨'T' :: []⟩) ∧
      (∃ G, robj2.grants = [G] ∧ G.ext_grant_id = some "G-1") :=
  c5_round_trip_amended 'T' [] 'A' [] 3 "G-1" "NIH" "res1" "http://x"
    "200: OK" 5 true

end GBC
